import Mathlib

/-!
# PerformanceCounterViewer

A shallow embedding of `qrenderdoc/Windows/PerformanceCounterViewer.cpp`:
the value formatter `FormatCounterResult`, the capture pipeline
`CaptureCounters` with the two `QMap`s it builds, the results table it
publishes, and the double-click handler.

Conventions.
* Unsigned machine integers (`uint32_t`, `uint64_t`, `GPUCounter`) are natural
  numbers; the code only compares, stores and prints them.
* `double` arithmetic, `QString::number(double)` and `UnitSuffix` come from
  outside the file and are the fields of `Env`.
* Calls on collaborators (dialog, replay controller) are recorded in a log that
  is part of the viewer state.
* Line 153, `eventIdToRow[result.eventID] = eventIdToRow.size()`, reads the
  size of the map it is inserting into. Before C++17 the order of the two
  operands is unspecified, so the order is the field `order` of `Env`.
-/

namespace PerformanceCounterViewer

/-! ## Replay API data types -/

/-- Component type of a counter value. `FormatCounterResult` names `Float`,
`Double` and `UInt`; every other enumerator reaches the `default` label. -/
inductive CompType where
  | Typeless | Float | UNorm | SNorm | UInt | SInt | UScaled | SScaled | Depth | Double
  deriving DecidableEq, Repr

/-- Unit of a counter, the six enumerators of the second `switch`. -/
inductive CounterUnit where
  | Absolute | Seconds | Percentage | Ratio | Bytes | Cycles
  deriving DecidableEq, Repr

/-- The configured time unit, `Config().EventBrowser_TimeUnit`. -/
inductive TimeUnit where
  | Seconds | Milliseconds | Microseconds | Nanoseconds
  deriving DecidableEq, Repr

/-- A counter identifier, `enum class GPUCounter : uint32_t`. -/
abbrev GPUCounter := Nat

/-- The fields of `CounterDescription` that the viewer reads. -/
structure CounterDescription where
  counterID : GPUCounter
  name : String
  resultType : CompType
  resultByteWidth : Nat
  unit : CounterUnit
  deriving DecidableEq, Repr

/-- The `value` union of a `CounterResult`, one field per member the formatter
reads. `f` holds the `float` member as widened to `double` at its use. -/
structure CounterValue (D : Type) where
  f : D
  d : D
  u32 : Nat
  u64 : Nat

/-- One sample returned by `FetchCounters`. -/
structure CounterResult (D : Type) where
  eventID : Nat
  counterID : GPUCounter
  value : CounterValue D

/-- The order in which a build evaluates the two operands of
`eventIdToRow[result.eventID] = eventIdToRow.size()` (line 153): `size()`
before `operator[]` adds the key (`sizeFirst`, the order C++17 prescribes), or
`operator[]` first (`keyFirst`, allowed before C++17). -/
inductive AssignOrder where
  | sizeFirst | keyFirst
  deriving DecidableEq, Repr

/-- What the code takes from outside the file, over a carrier `D` for
`double`: the literals `1.0`, `1000.0`, ... (`lit n` is the double `n.0`),
multiplication, `QString::number(double)`, `UnitSuffix`, the default-constructed
description and the operand order of line 153. -/
structure Env (D : Type) where
  lit : Nat → D
  mul : D → D → D
  number : D → String
  UnitSuffix : TimeUnit → String
  /-- `CounterDescription()`, what a const `QMap::operator[]` yields for an absent key -/
  defaultDescription : CounterDescription
  /-- the operand order of the assignment in line 153 -/
  order : AssignOrder

/-! ## FormatCounterResult -/

/-- `PerformanceCounterViewer::FormatCounterResult`, with the configured time
unit passed in. The `UInt` case has no `break` and runs on into `default`,
whose only statement is `break`. -/
def FormatCounterResult {D : Type} (env : Env D) (timeunit : TimeUnit)
    (result : CounterResult D) (description : CounterDescription) : String :=
  let returnValue := ""
  let mul := env.lit 1
  let mul :=
    if description.unit = CounterUnit.Seconds then
      if timeunit = TimeUnit.Milliseconds then env.mul mul (env.lit 1000)
      else if timeunit = TimeUnit.Microseconds then env.mul mul (env.lit 1000000)
      else if timeunit = TimeUnit.Nanoseconds then env.mul mul (env.lit 1000000000)
      else mul
    else mul
  let returnValue :=
    match description.resultType with
    | CompType.Float => returnValue ++ env.number (env.mul mul result.value.f)
    | CompType.Double => returnValue ++ env.number (env.mul mul result.value.d)
    | CompType.UInt =>
      if description.resultByteWidth = 8 then returnValue ++ Nat.repr result.value.u64
      else returnValue ++ Nat.repr result.value.u32
    | _ => returnValue
  let returnValue :=
    match description.unit with
    | CounterUnit.Bytes => returnValue ++ " bytes"
    | CounterUnit.Cycles => returnValue ++ " cycles"
    | CounterUnit.Percentage => returnValue ++ " %"
    | CounterUnit.Seconds => returnValue ++ (" " ++ env.UnitSuffix timeunit)
    | CounterUnit.Absolute => returnValue
    | CounterUnit.Ratio => returnValue
  returnValue

/-! ## QMap -/

/-- `QMap<K, V>` for an unsigned integer key type: the entries, kept in
ascending key order, which is also the order in which the map is iterated. -/
abbrev QMap (V : Type) := List (Nat × V)

/-- The empty map a `QMap` local starts as. -/
def QMap.empty {V : Type} : QMap V := []

/-- `QMap::insert(key, value)`: replaces the value of an equal key, otherwise
adds the entry at its place in key order. -/
def QMap.insert {V : Type} : QMap V → Nat → V → QMap V
  | [], k, v => [(k, v)]
  | (k', v') :: rest, k, v =>
    if k < k' then (k, v) :: (k', v') :: rest
    else if k' < k then (k', v') :: QMap.insert rest k v
    else (k, v) :: rest

/-- `QMap::contains(key)`. -/
def QMap.contains {V : Type} (m : QMap V) (k : Nat) : Bool :=
  m.any (fun p => p.1 == k)

/-- `QMap::size()`. -/
def QMap.size {V : Type} (m : QMap V) : Nat := m.length

/-- `QMap::value(key)`, which is what `operator[]` of a const map returns: the
stored value, or a default-constructed one (`dflt`) when the key is absent. -/
def QMap.value {V : Type} (dflt : V) : QMap V → Nat → V
  | [], _ => dflt
  | (k', v') :: rest, k => if k' = k then v' else QMap.value dflt rest k

/-- The values in iteration order, what a range-for over the map visits. -/
def QMap.values {V : Type} (m : QMap V) : List V := m.map (fun p => p.2)

/-! ## The results table -/

/-- A `QTableWidgetItem`: its text and its `Qt::UserRole` data, if any. -/
structure QTableWidgetItem where
  text : String
  userRole : Option Nat
  deriving DecidableEq, Repr

/-- The `counterResults` widget: its dimensions, the horizontal header labels
and the item of each cell. -/
structure QTableWidget where
  rowCount : Nat
  columnCount : Nat
  header : Nat → Option String
  cell : Nat → Nat → Option QTableWidgetItem

/-- The calls `CaptureCounters` makes on `ui->counterResults`.
`setItemData row col v` stands for `item(row, col)->setData(Qt::UserRole, v)`. -/
inductive TableOp where
  | clear
  | setColumnCount (n : Nat)
  | setHorizontalHeaderLabels (labels : List String)
  | setRowCount (n : Nat)
  | setItem (row col : Nat) (item : QTableWidgetItem)
  | setItemData (row col : Nat) (v : Nat)
  | resizeColumnsToContents
  deriving DecidableEq, Repr

/-- `QTableWidget::item(row, column)`. Qt keeps the items in one row-major
vector and indexes it with `row * columnCount + column`. -/
def QTableWidget.item (t : QTableWidget) (row col : Nat) : Option QTableWidgetItem :=
  let i := row * t.columnCount + col
  if i < t.rowCount * t.columnCount then t.cell (i / t.columnCount) (i % t.columnCount)
  else none

/-- Store `it` at the vector position `row * columnCount + column`; a position
outside the vector is dropped. -/
def QTableWidget.store (t : QTableWidget) (row col : Nat) (it : QTableWidgetItem) :
    QTableWidget :=
  let i := row * t.columnCount + col
  if i < t.rowCount * t.columnCount then
    { t with cell := fun r c =>
        if r = i / t.columnCount ∧ c = i % t.columnCount then some it else t.cell r c }
  else t

/-- The effect of one call on the widget. `none` is the null dereference of
`item(row, col)->setData` on a cell without an item. -/
def QTableWidget.exec (t : QTableWidget) : TableOp → Option QTableWidget
  | TableOp.clear =>
    some { t with header := fun _ => none, cell := fun _ _ => none }
  | TableOp.setColumnCount n =>
    some { t with columnCount := n
                  header := fun c => if c < n then t.header c else none
                  cell := fun r c => if c < n then t.cell r c else none }
  | TableOp.setHorizontalHeaderLabels labels =>
    some { t with header := fun c =>
            if c < t.columnCount ∧ c < labels.length then labels[c]? else t.header c }
  | TableOp.setRowCount n =>
    some { t with rowCount := n
                  cell := fun r c => if r < n then t.cell r c else none }
  | TableOp.setItem row col it => some (t.store row col it)
  | TableOp.setItemData row col v =>
    match t.item row col with
    | none => none
    | some it => some (t.store row col { it with userRole := some v })
  | TableOp.resizeColumnsToContents => some t

/-- Run a sequence of calls in order. -/
def QTableWidget.run : QTableWidget → List TableOp → Option QTableWidget
  | t, [] => some t
  | t, op :: ops =>
    match t.exec op with
    | none => none
    | some t' => QTableWidget.run t' ops

/-! ## CaptureCounters -/

/-- What `m_Ctx` answers during one `CaptureCounters`: whether a capture is
loaded, the configured time unit, and the replay controller's two
operations. -/
structure Context (D : Type) where
  LogLoaded : Bool
  timeunit : TimeUnit
  DescribeCounter : GPUCounter → CounterDescription
  FetchCounters : List GPUCounter → List (CounterResult D)

/-- Result code of a modal dialog. -/
inductive DialogCode where
  | Rejected | Accepted
  deriving DecidableEq, Repr

/-- The counter selection dialog as the viewer sees it: the code
`RDDialog::show` returns and the list `GetSelectedCounters` returns. -/
structure PerformanceCounterSelection where
  result : DialogCode
  selectedCounters : List GPUCounter

/-- A call on the replay controller. -/
inductive ReplayCall where
  | DescribeCounter (counter : GPUCounter)
  | FetchCounters (counters : List GPUCounter)
  deriving DecidableEq, Repr

/-- The viewer and the record of what it has asked of its collaborators: the
results table, the number of times the selection dialog was shown, the replay
controller calls issued (oldest first) and the calls made on the table (oldest
first). -/
structure Viewer where
  counterResults : QTableWidget
  dialogsShown : Nat
  replayCalls : List ReplayCall
  tableCalls : List TableOp

/-- The first loop of the replay-thread lambda (lines 124-128) over the
description map and the log of controller calls: each position of the selection
calls `DescribeCounter` and inserts the answer under the counter. -/
def describeCounters {D : Type} (ctx : Context D) :
    List GPUCounter → QMap CounterDescription × List ReplayCall →
      QMap CounterDescription × List ReplayCall
  | [], s => s
  | c :: cs, (m, log) =>
    describeCounters ctx cs
      (QMap.insert m c (ctx.DescribeCounter c), log ++ [ReplayCall.DescribeCounter c])

/-- The second loop (lines 130-134): `counterIndex.insert(selectedCounters[i], i)`
for `i` from the given start index. -/
def indexCounters : List GPUCounter → Nat → QMap Nat → QMap Nat
  | [], _, m => m
  | c :: cs, i, m => indexCounters cs (i + 1) (QMap.insert m c i)

/-- The `headers` list (lines 141-146): `"EID"`, then the name of every
description in the iteration order of the map. -/
def headers (counterDescriptions : QMap CounterDescription) : List String :=
  "EID" :: (QMap.values counterDescriptions).map (fun cd => cd.name)

/-- Line 153 for an eventID that is not yet a key,
`eventIdToRow[eventID] = eventIdToRow.size()`. With `sizeFirst` the size is
read and then stored under the new key. With `keyFirst` the non-const
`operator[]` first adds the key with the default value 0, and the size read
after that counts the new key. -/
def assignRow (order : AssignOrder) (m : QMap Nat) (eventID : Nat) : QMap Nat :=
  match order with
  | AssignOrder.sizeFirst => QMap.insert m eventID (QMap.size m)
  | AssignOrder.keyFirst =>
    let m1 := QMap.insert m eventID 0
    QMap.insert m1 eventID (QMap.size m1)

/-- The row loop (lines 148-154). An eventID already in the map is skipped; a
new one is stored by line 153 under the given operand order. -/
def eventIdToRow {D : Type} (order : AssignOrder) :
    List (CounterResult D) → QMap Nat → QMap Nat
  | [], m => m
  | result :: rest, m =>
    if QMap.contains m result.eventID then eventIdToRow order rest m
    else eventIdToRow order rest (assignRow order m result.eventID)

/-- The three table calls of one iteration of the cell loop (lines 162-169).
Every eventID of the results is a key of `rows` by then, so `operator[]` on
that local map only reads. -/
def cellCalls {D : Type} (env : Env D) (timeunit : TimeUnit)
    (counterDescriptions : QMap CounterDescription) (counterIndex rows : QMap Nat)
    (result : CounterResult D) : List TableOp :=
  let row := QMap.value 0 rows result.eventID
  [ TableOp.setItem row 0 { text := Nat.repr result.eventID, userRole := none },
    TableOp.setItem row (QMap.value 0 counterIndex result.counterID + 1)
      { text := FormatCounterResult env timeunit result
          (QMap.value env.defaultDescription counterDescriptions result.counterID),
        userRole := none },
    TableOp.setItemData row 0 result.eventID ]

/-- The cell loop (lines 160-170) over the results in order. -/
def cellLoop {D : Type} (env : Env D) (timeunit : TimeUnit)
    (counterDescriptions : QMap CounterDescription) (counterIndex rows : QMap Nat) :
    List (CounterResult D) → List TableOp
  | [] => []
  | result :: rest =>
    cellCalls env timeunit counterDescriptions counterIndex rows result ++
      cellLoop env timeunit counterDescriptions counterIndex rows rest

/-- The GUI-thread lambda (lines 138-173) as the sequence of calls it makes on
the table. Both maps are captured by copy and are const inside the lambda, so
`operator[]` on them is `QMap.value`. -/
def publishCalls {D : Type} (env : Env D) (timeunit : TimeUnit)
    (results : List (CounterResult D)) (counterDescriptions : QMap CounterDescription)
    (counterIndex : QMap Nat) : List TableOp :=
  let hs := headers counterDescriptions
  let rows := eventIdToRow env.order results QMap.empty
  [ TableOp.clear,
    TableOp.setColumnCount hs.length,
    TableOp.setHorizontalHeaderLabels hs,
    TableOp.setRowCount (QMap.size rows) ] ++
  cellLoop env timeunit counterDescriptions counterIndex rows results ++
  [ TableOp.resizeColumnsToContents ]

/-- `PerformanceCounterViewer::CaptureCounters`. The replay-thread lambda and
the GUI-thread lambda it posts run one after the other while the progress
dialog waits for `done`. `none` is a null dereference while publishing. -/
def CaptureCounters {D : Type} (env : Env D) (ctx : Context D)
    (pcs : PerformanceCounterSelection) (v : Viewer) : Option Viewer :=
  if !ctx.LogLoaded then some v
  else
    let v := { v with dialogsShown := v.dialogsShown + 1 }
    if pcs.result ≠ DialogCode.Accepted then some v
    else
      let selectedCounters := pcs.selectedCounters
      let counters := selectedCounters
      let described := describeCounters ctx selectedCounters (QMap.empty, v.replayCalls)
      let counterDescriptions := described.1
      let counterIndex := indexCounters selectedCounters 0 QMap.empty
      let results := ctx.FetchCounters counters
      let replayCalls := described.2 ++ [ReplayCall.FetchCounters counters]
      let calls := publishCalls env ctx.timeunit results counterDescriptions counterIndex
      match v.counterResults.run calls with
      | none => none
      | some table =>
        some { v with
          counterResults := table
          replayCalls := replayCalls
          tableCalls := v.tableCalls ++ calls }

/-- `on_counterResults_doubleClicked` for a click in the given row: the eventID
handed to `SetEventID`, or `none` when the row has no item in column 0 or the
item carries no unsigned `UserRole` data. -/
def on_counterResults_doubleClicked (t : QTableWidget) (row : Nat) : Option Nat :=
  match t.item row 0 with
  | none => none
  | some item => item.userRole

/-! ## A concrete environment

Exact decimal numbers stand in for `double`; they agree with it wherever the
doubles involved are exact. -/

/-- A decimal number `mant * 10 ^ exp`. -/
structure Dec where
  mant : Int
  exp : Int
  deriving DecidableEq, Repr

/-- The decimal `n.0`. -/
def Dec.ofNat (n : Nat) : Dec := ⟨n, 0⟩

/-- Exact product. -/
def Dec.mul (a b : Dec) : Dec := ⟨a.mant * b.mant, a.exp + b.exp⟩

/-- Drop the zeros at the end of a digit list. -/
def stripZeros (ds : List Char) : List Char :=
  (ds.reverse.dropWhile (fun c => c == '0')).reverse

/-- Round the natural number `n`, written with `len` digits, to six significant
digits (ties to even). Returns the six-digit number and whether rounding
carried into a seventh digit. -/
def roundSix (n len : Nat) : Nat × Bool :=
  if len ≤ 6 then (n * 10 ^ (6 - len), false)
  else
    let p := 10 ^ (len - 6)
    let q := n / p
    let r := n % p
    let q := if 2 * r > p ∨ (2 * r = p ∧ q % 2 = 1) then q + 1 else q
    if q = 1000000 then (100000, true) else (q, false)

/-- `QString::number(double)` with its default arguments, format `g` with
precision 6: six significant digits, trailing zeros removed, exponent form when
the decimal exponent is below -4 or at least 6. -/
def Dec.number (x : Dec) : String :=
  if x.mant = 0 then "0"
  else
    let n := x.mant.natAbs
    let len := (Nat.toDigits 10 n).length
    let (m, carry) := roundSix n len
    let e : Int := x.exp + (len : Int) - 1 + (if carry then 1 else 0)
    let ds := Nat.toDigits 10 m
    let sign := if x.mant < 0 then "-" else ""
    let body :=
      if e < -4 ∨ 6 ≤ e then
        let frac := stripZeros (ds.drop 1)
        let ex := Nat.toDigits 10 e.natAbs
        ds.take 1 ++ (if frac = [] then [] else '.' :: frac) ++
          ['e', if e < 0 then '-' else '+'] ++ (if ex.length < 2 then '0' :: ex else ex)
      else if 0 ≤ e then
        let frac := stripZeros (ds.drop (e.toNat + 1))
        ds.take (e.toNat + 1) ++ (if frac = [] then [] else '.' :: frac)
      else
        '0' :: '.' :: (List.replicate ((-e).toNat - 1) '0' ++ stripZeros ds)
    sign ++ String.mk body

/-- Modelled from the spec: `UnitSuffix` is declared outside this file; the
spec gives the suffixes "s", "ms", "µs" and "ns" for the four time units. -/
def UnitSuffix : TimeUnit → String
  | TimeUnit.Seconds => "s"
  | TimeUnit.Milliseconds => "ms"
  | TimeUnit.Microseconds => "µs"
  | TimeUnit.Nanoseconds => "ns"

/-- The environment over exact decimals, for a build that evaluates `size()`
first in line 153. The default description is the zero-initialised one. -/
def decEnv : Env Dec where
  lit := Dec.ofNat
  mul := Dec.mul
  number := Dec.number
  UnitSuffix := UnitSuffix
  defaultDescription :=
    { counterID := 0, name := "", resultType := CompType.Typeless, resultByteWidth := 0,
      unit := CounterUnit.Absolute }
  order := AssignOrder.sizeFirst

/-- The same environment for a build that evaluates `operator[]` first in
line 153. -/
def decEnvKeyFirst : Env Dec := { decEnv with order := AssignOrder.keyFirst }

/-! ## The formatter as the spec words it -/

/-- The multiplier as the spec words it: 1000, 1000000, 1000000000 for
Milliseconds, Microseconds, Nanoseconds when the unit is Seconds, else 1. -/
def specMultiplier : CounterUnit → TimeUnit → Nat
  | CounterUnit.Seconds, TimeUnit.Milliseconds => 1000
  | CounterUnit.Seconds, TimeUnit.Microseconds => 1000000
  | CounterUnit.Seconds, TimeUnit.Nanoseconds => 1000000000
  | _, _ => 1

/-- The unit suffix as the spec words it. -/
def specSuffix (suffix : TimeUnit → String) : CounterUnit → TimeUnit → String
  | CounterUnit.Bytes, _ => " bytes"
  | CounterUnit.Cycles, _ => " cycles"
  | CounterUnit.Percentage, _ => " %"
  | CounterUnit.Seconds, tu => " " ++ suffix tu
  | CounterUnit.Absolute, _ => ""
  | CounterUnit.Ratio, _ => ""

/-! ## The published cells, stated over the results -/

/-- The item the cell loop writes for `result` into column `c`: the eventID
with its UserRole data in column 0, the formatted value elsewhere. -/
def cellItem {D : Type} (env : Env D) (timeunit : TimeUnit)
    (counterDescriptions : QMap CounterDescription) (result : CounterResult D) (c : Nat) :
    QTableWidgetItem :=
  if c = 0 then { text := Nat.repr result.eventID, userRole := some result.eventID }
  else
    { text := FormatCounterResult env timeunit result
        (QMap.value env.defaultDescription counterDescriptions result.counterID),
      userRole := none }

/-- Whether the iteration for `result` addresses cell `(row, c)`: its eventID
has that row, and `c` is column 0 or the column of its counter. -/
def writesCell {D : Type} (counterIndex rows : QMap Nat) (row c : Nat)
    (result : CounterResult D) : Bool :=
  decide (QMap.value 0 rows result.eventID = row ∧
    (c = 0 ∨ c = QMap.value 0 counterIndex result.counterID + 1))

/-- The last result of the sequence whose iteration addresses cell `(row, c)`. -/
def lastWrite {D : Type} (counterIndex rows : QMap Nat) (results : List (CounterResult D))
    (row c : Nat) : Option (CounterResult D) :=
  results.reverse.find? (writesCell counterIndex rows row c)

/-! ## Concrete inputs -/

/-- A sample with the given identifiers whose union reads as 0.5 through `f`,
2.5 through `d` and `u` through both integer members. -/
def sample (eventID : Nat) (counterID : GPUCounter) (u : Nat) : CounterResult Dec :=
  { eventID := eventID, counterID := counterID,
    value := { f := ⟨5, -1⟩, d := ⟨25, -1⟩, u32 := u, u64 := u } }

/-- A description with the given name, type, width and unit. -/
def describe (counterID : GPUCounter) (name : String) (ty : CompType) (width : Nat)
    (unit : CounterUnit) : CounterDescription :=
  { counterID := counterID, name := name, resultType := ty, resultByteWidth := width,
    unit := unit }

/-- A table without rows, columns, headers or items. -/
def emptyTable : QTableWidget :=
  { rowCount := 0, columnCount := 0, header := fun _ => none, cell := fun _ _ => none }

/-- A viewer that has not captured anything yet. -/
def freshViewer : Viewer :=
  { counterResults := emptyTable, dialogsShown := 0, replayCalls := [], tableCalls := [] }

/-- A loaded capture with two 4-byte integer counters, 1 named "A" and 2 named
"B"; one event, 7, at which counter 2 reads 20 and counter 1 reads 10. -/
def twoCounters : Context Dec where
  LogLoaded := true
  timeunit := TimeUnit.Seconds
  DescribeCounter := fun c =>
    if c = 1 then describe 1 "A" CompType.UInt 4 CounterUnit.Absolute
    else describe c "B" CompType.UInt 4 CounterUnit.Absolute
  FetchCounters := fun _ => [sample 7 2 20, sample 7 1 10]

/-- A loaded capture with samples of counter 1 at events 7, 3, 7 in that
order. -/
def unsortedEvents : Context Dec where
  LogLoaded := true
  timeunit := TimeUnit.Seconds
  DescribeCounter := fun c => describe c "C" CompType.UInt 4 CounterUnit.Absolute
  FetchCounters := fun _ => [sample 7 1 70, sample 3 1 30, sample 7 1 71]

/-- A loaded capture with 4-byte integer samples of counter 5: event 1 reads
10, event 2 reads 20, then event 1 again reads 11. -/
def repeatedCounter : Context Dec where
  LogLoaded := true
  timeunit := TimeUnit.Seconds
  DescribeCounter := fun c => describe c "C" CompType.UInt 4 CounterUnit.Absolute
  FetchCounters := fun _ => [sample 1 5 10, sample 2 5 20, sample 1 5 11]

/-- A loaded capture whose replay controller answers every fetch with samples
of counter 9 at events 1 and 2. -/
def twoStraySamples : Context Dec where
  LogLoaded := true
  timeunit := TimeUnit.Seconds
  DescribeCounter := fun c => describe c "C" CompType.UInt 4 CounterUnit.Absolute
  FetchCounters := fun _ => [sample 1 9 33, sample 2 9 34]

/-- A loaded capture with two 4-byte integer samples of counter 5 at event 1,
reading 10 and then 11. -/
def duplicateSamples : Context Dec where
  LogLoaded := true
  timeunit := TimeUnit.Seconds
  DescribeCounter := fun c => describe c "C" CompType.UInt 4 CounterUnit.Absolute
  FetchCounters := fun _ => [sample 1 5 10, sample 1 5 11]

/-- The calls the publishing step of `CaptureCounters` makes on the table, in
order, for a context and an accepted selection, started from a viewer without
earlier replay calls. -/
def publishingOf {D : Type} (env : Env D) (ctx : Context D) (sel : List GPUCounter) :
    List TableOp :=
  publishCalls env ctx.timeunit (ctx.FetchCounters sel)
    (describeCounters ctx sel (QMap.empty, [])).1 (indexCounters sel 0 QMap.empty)

/-- No capture loaded. -/
def notLoaded : Context Dec where
  LogLoaded := false
  timeunit := TimeUnit.Seconds
  DescribeCounter := fun c => describe c "C" CompType.UInt 4 CounterUnit.Absolute
  FetchCounters := fun _ => [sample 1 1 1]

/-! # Theorems -/

/-! ## FormatCounterResult -/

theorem append_eq_self_iff (s t : String) : s ++ t = s ↔ t = "" := by
  constructor
  · intro h
    have hl := congrArg String.length h
    rw [String.length_append] at hl
    have : t.length = 0 := by omega
    exact String.ext (List.length_eq_zero.mp this)
  · rintro rfl; simp

/-- C4: for a description of result type UInt the formatter returns the decimal
text of the integer member (u64 for byte width 8, u32 otherwise), unscaled,
followed by the suffix of the unit. -/
theorem FormatCounterResult_UInt {D : Type} (env : Env D) (timeunit : TimeUnit)
    (result : CounterResult D) (description : CounterDescription)
    (hty : description.resultType = CompType.UInt) :
    FormatCounterResult env timeunit result description =
      Nat.repr (if description.resultByteWidth = 8 then result.value.u64
                else result.value.u32) ++
      (match description.unit with
       | CounterUnit.Bytes => " bytes"
       | CounterUnit.Cycles => " cycles"
       | CounterUnit.Percentage => " %"
       | CounterUnit.Absolute => ""
       | CounterUnit.Ratio => ""
       | CounterUnit.Seconds => " " ++ env.UnitSuffix timeunit) := by
  obtain ⟨cid, name, ty, w, unit⟩ := description
  simp only at hty
  subst hty
  by_cases hw : w = 8 <;> cases unit <;> simp [FormatCounterResult, hw]

theorem FormatCounterResult_UInt_witness :
    (describe 1 "mem" CompType.UInt 8 CounterUnit.Bytes).resultType = CompType.UInt ∧
    FormatCounterResult decEnv TimeUnit.Nanoseconds (sample 1 1 4096)
      (describe 1 "mem" CompType.UInt 8 CounterUnit.Bytes) = "4096 bytes" :=
  ⟨rfl, (FormatCounterResult_UInt decEnv TimeUnit.Nanoseconds (sample 1 1 4096)
    (describe 1 "mem" CompType.UInt 8 CounterUnit.Bytes) rfl).trans (by decide)⟩

/-- C5: for a description of result type Float or Double the formatter returns
the rendering of multiplier times value followed by the unit suffix, with the
multiplier and the suffix the spec gives. -/
theorem FormatCounterResult_floating {D : Type} (env : Env D) (timeunit : TimeUnit)
    (result : CounterResult D) (description : CounterDescription)
    (hone : ∀ x : D, env.mul (env.lit 1) x = x)
    (hty : description.resultType = CompType.Float ∨
      description.resultType = CompType.Double) :
    FormatCounterResult env timeunit result description =
      env.number (env.mul (env.lit (specMultiplier description.unit timeunit))
        (if description.resultType = CompType.Float then result.value.f
         else result.value.d)) ++
      specSuffix env.UnitSuffix description.unit timeunit := by
  obtain ⟨cid, name, ty, w, unit⟩ := description
  simp only at hty
  rcases hty with rfl | rfl <;> cases unit <;> cases timeunit <;>
    simp [FormatCounterResult, specMultiplier, specSuffix, hone]

theorem decEnv_one_mul (x : Dec) : decEnv.mul (decEnv.lit 1) x = x := by
  cases x
  simp [decEnv, Dec.mul, Dec.ofNat]

theorem FormatCounterResult_floating_witness :
    (∀ x : Dec, decEnv.mul (decEnv.lit 1) x = x) ∧
    ((describe 3 "gpu time" CompType.Double 8 CounterUnit.Seconds).resultType = CompType.Float ∨
      (describe 3 "gpu time" CompType.Double 8 CounterUnit.Seconds).resultType =
        CompType.Double) ∧
    FormatCounterResult decEnv TimeUnit.Microseconds (sample 1 3 0)
        (describe 3 "gpu time" CompType.Double 8 CounterUnit.Seconds) =
      decEnv.number (decEnv.mul (decEnv.lit 1000000) ⟨25, -1⟩) ++ (" " ++ "µs") ∧
    decEnv.number (decEnv.mul (decEnv.lit 1000000) ⟨25, -1⟩) ++ (" " ++ "µs") =
      "2.5e+06 µs" :=
  ⟨decEnv_one_mul, Or.inr rfl,
    FormatCounterResult_floating decEnv TimeUnit.Microseconds (sample 1 3 0)
      (describe 3 "gpu time" CompType.Double 8 CounterUnit.Seconds) decEnv_one_mul
      (Or.inr rfl),
    by decide⟩

/-- C6: at a description whose result type is SInt and whose unit is Absolute
the formatter returns the empty string; no error is raised. -/
theorem FormatCounterResult_unrecognized_empty :
    FormatCounterResult decEnv TimeUnit.Seconds (sample 1 1 7)
      (describe 1 "signed" CompType.SInt 4 CounterUnit.Absolute) = "" := by
  decide

/-- C7: for a description whose unit is not Seconds the formatted text is the
same under any two time units. -/
theorem FormatCounterResult_timeunit_irrelevant {D : Type} (env : Env D)
    (t1 t2 : TimeUnit) (result : CounterResult D) (description : CounterDescription)
    (hunit : description.unit ≠ CounterUnit.Seconds) :
    FormatCounterResult env t1 result description =
      FormatCounterResult env t2 result description := by
  obtain ⟨cid, name, ty, w, unit⟩ := description
  cases unit <;> simp_all [FormatCounterResult]

theorem FormatCounterResult_timeunit_irrelevant_witness :
    (describe 2 "busy" CompType.Float 4 CounterUnit.Percentage).unit ≠ CounterUnit.Seconds ∧
    FormatCounterResult decEnv TimeUnit.Seconds (sample 1 2 0)
        (describe 2 "busy" CompType.Float 4 CounterUnit.Percentage) =
      FormatCounterResult decEnv TimeUnit.Nanoseconds (sample 1 2 0)
        (describe 2 "busy" CompType.Float 4 CounterUnit.Percentage) ∧
    FormatCounterResult decEnv TimeUnit.Nanoseconds (sample 1 2 0)
        (describe 2 "busy" CompType.Float 4 CounterUnit.Percentage) = "0.5 %" :=
  ⟨by decide,
    FormatCounterResult_timeunit_irrelevant decEnv TimeUnit.Seconds TimeUnit.Nanoseconds
      (sample 1 2 0) (describe 2 "busy" CompType.Float 4 CounterUnit.Percentage) (by decide),
    by decide⟩

/-- C10, as stated, fails: a Bytes-unit 8-byte UInt value of 4096 is returned
with the suffix appended, not as the bare number. -/
theorem FormatCounterResult_UInt_suffix_kept :
    FormatCounterResult decEnv TimeUnit.Seconds (sample 1 1 4096)
        (describe 1 "mem" CompType.UInt 8 CounterUnit.Bytes) = "4096 bytes" ∧
    FormatCounterResult decEnv TimeUnit.Seconds (sample 1 1 4096)
        (describe 1 "mem" CompType.UInt 8 CounterUnit.Bytes) ≠ Nat.repr 4096 := by
  decide

/-- C10, amended: for a description of result type UInt the returned string is
the bare decimal number exactly when the unit is Absolute or Ratio; the
fallthrough into `default` skips nothing. -/
theorem FormatCounterResult_UInt_bare_iff {D : Type} (env : Env D) (timeunit : TimeUnit)
    (result : CounterResult D) (description : CounterDescription)
    (hty : description.resultType = CompType.UInt) :
    FormatCounterResult env timeunit result description =
        Nat.repr (if description.resultByteWidth = 8 then result.value.u64
                  else result.value.u32) ↔
      (description.unit = CounterUnit.Absolute ∨ description.unit = CounterUnit.Ratio) := by
  obtain ⟨cid, name, ty, w, unit⟩ := description
  simp only at hty
  subst hty
  have hsp : ∀ s : String, " " ++ s ≠ "" := by
    intro s h
    have hl := congrArg String.length h
    rw [String.length_append] at hl
    have h1 : (" " : String).length = 1 := by decide
    have h0 : ("" : String).length = 0 := by decide
    omega
  by_cases hw : w = 8 <;> cases unit <;>
    simp [FormatCounterResult, hw, append_eq_self_iff, hsp]

theorem FormatCounterResult_UInt_bare_iff_witness :
    (describe 4 "draws" CompType.UInt 4 CounterUnit.Absolute).resultType = CompType.UInt ∧
    (FormatCounterResult decEnv TimeUnit.Milliseconds (sample 1 4 12)
        (describe 4 "draws" CompType.UInt 4 CounterUnit.Absolute) =
        Nat.repr (if (describe 4 "draws" CompType.UInt 4 CounterUnit.Absolute).resultByteWidth = 8
          then (sample 1 4 12).value.u64 else (sample 1 4 12).value.u32) ↔
      ((describe 4 "draws" CompType.UInt 4 CounterUnit.Absolute).unit = CounterUnit.Absolute ∨
        (describe 4 "draws" CompType.UInt 4 CounterUnit.Absolute).unit = CounterUnit.Ratio)) :=
  ⟨rfl, FormatCounterResult_UInt_bare_iff decEnv TimeUnit.Milliseconds (sample 1 4 12)
    (describe 4 "draws" CompType.UInt 4 CounterUnit.Absolute) rfl⟩

/-! ## QMap lemmas -/

theorem QMap.value_insert {V : Type} (d : V) (m : QMap V) (k : Nat) (v : V) (q : Nat) :
    QMap.value d (QMap.insert m k v) q = if k = q then v else QMap.value d m q := by
  induction m with
  | nil => simp [QMap.insert, QMap.value]
  | cons p rest ih =>
    obtain ⟨k', v'⟩ := p
    unfold QMap.insert
    by_cases h1 : k < k'
    · simp only [h1, if_true]
      simp [QMap.value]
    · by_cases h2 : k' < k
      · simp only [h1, h2, if_true, if_false]
        simp only [QMap.value, ih]
        by_cases hq : k' = q
        · have : k ≠ q := by omega
          simp [hq, this]
        · simp [hq]
      · have hk : k' = k := by omega
        simp only [h1, h2, if_false]
        subst hk
        by_cases hq : k' = q <;> simp [QMap.value, hq]

theorem QMap.contains_insert {V : Type} (m : QMap V) (k : Nat) (v : V) (q : Nat) :
    QMap.contains (QMap.insert m k v) q = (k == q || QMap.contains m q) := by
  induction m with
  | nil => simp [QMap.insert, QMap.contains]
  | cons p rest ih =>
    obtain ⟨k', v'⟩ := p
    unfold QMap.insert
    by_cases h1 : k < k'
    · simp [h1, QMap.contains]
    · by_cases h2 : k' < k
      · simp only [h1, h2, if_true, if_false]
        have ih' := ih
        simp only [QMap.contains] at ih' ⊢
        simp only [List.any_cons, ih']
        cases (k == q) <;> cases (k' == q) <;> simp
      · have hk : k' = k := by omega
        subst hk
        simp only [h1, if_false, QMap.contains, List.any_cons]
        cases (k' == q) <;> simp

theorem QMap.size_insert {V : Type} (m : QMap V) (k : Nat) (v : V)
    (h : QMap.contains m k = false) :
    QMap.size (QMap.insert m k v) = QMap.size m + 1 := by
  induction m with
  | nil => simp [QMap.insert, QMap.size]
  | cons p rest ih =>
    obtain ⟨k', v'⟩ := p
    have hne : k' ≠ k := by
      intro hk
      simp [QMap.contains, hk] at h
    have hrest : QMap.contains rest k = false := by
      simp only [QMap.contains, List.any_cons, Bool.or_eq_false_iff] at h ⊢
      exact h.2
    unfold QMap.insert
    by_cases h1 : k < k'
    · simp [h1, QMap.size]
    · have h2 : k' < k := by omega
      have ih' := ih hrest
      simp only [QMap.size] at ih' ⊢
      simp [h1, h2, ih']

theorem QMap.mem_insert {V : Type} (m : QMap V) (k : Nat) (v : V) (p : Nat × V)
    (h : p ∈ QMap.insert m k v) : p = (k, v) ∨ p ∈ m := by
  induction m with
  | nil => simpa [QMap.insert] using h
  | cons p' rest ih =>
    obtain ⟨k', v'⟩ := p'
    unfold QMap.insert at h
    by_cases h1 : k < k'
    · simp only [h1, if_true] at h
      simpa using h
    · by_cases h2 : k' < k
      · simp only [h1, h2, if_true, if_false, List.mem_cons] at h
        rcases h with h | h
        · exact Or.inr (by simp [h])
        · rcases ih h with h | h
          · exact Or.inl h
          · exact Or.inr (List.mem_cons_of_mem _ h)
      · simp only [h1, h2, if_false, List.mem_cons] at h
        rcases h with h | h
        · exact Or.inl h
        · exact Or.inr (List.mem_cons_of_mem _ h)

theorem QMap.value_mem {V : Type} (d : V) (m : QMap V) (k : Nat)
    (h : QMap.contains m k = true) : (k, QMap.value d m k) ∈ m := by
  induction m with
  | nil => simp [QMap.contains] at h
  | cons p rest ih =>
    obtain ⟨k', v'⟩ := p
    by_cases hk : k' = k
    · subst hk
      simp [QMap.value]
    · have hrest : QMap.contains rest k = true := by
        simpa [QMap.contains, hk] using h
      simp only [QMap.value, hk, if_false]
      exact List.mem_cons_of_mem _ (ih hrest)

/-! ## The maps built on the replay thread -/

theorem describeCounters_value {D : Type} (ctx : Context D) (d : CounterDescription)
    (sel : List GPUCounter) (m : QMap CounterDescription) (log : List ReplayCall)
    (q : GPUCounter) :
    QMap.value d (describeCounters ctx sel (m, log)).1 q =
      if q ∈ sel then ctx.DescribeCounter q else QMap.value d m q := by
  induction sel generalizing m log with
  | nil => simp [describeCounters]
  | cons c cs ih =>
    simp only [describeCounters, ih, QMap.value_insert, List.mem_cons]
    by_cases h1 : q ∈ cs
    · simp [h1]
    · by_cases h2 : c = q
      · subst h2; simp [h1]
      · have h3 : ¬ q = c := fun h => h2 h.symm
        simp [h1, h2, h3]

theorem indexCounters_value_of_not_mem (sel : List GPUCounter) (s : Nat) (m : QMap Nat)
    (q : GPUCounter) (hq : q ∉ sel) :
    QMap.value 0 (indexCounters sel s m) q = QMap.value 0 m q := by
  induction sel generalizing s m with
  | nil => simp [indexCounters]
  | cons c cs ih =>
    simp only [List.mem_cons, not_or] at hq
    simp only [indexCounters]
    rw [ih _ _ hq.2, QMap.value_insert]
    have : c ≠ q := fun h => hq.1 h.symm
    simp [this]

theorem indexCounters_value (sel : List GPUCounter) (hsel : sel.Nodup) (s : Nat)
    (m : QMap Nat) (i : Nat) (c : GPUCounter) (hi : sel[i]? = some c) :
    QMap.value 0 (indexCounters sel s m) c = s + i := by
  induction sel generalizing s m i with
  | nil => simp at hi
  | cons c0 cs ih =>
    rw [List.nodup_cons] at hsel
    cases i with
    | zero =>
      simp only [List.getElem?_cons_zero, Option.some.injEq] at hi
      subst hi
      simp only [indexCounters]
      rw [indexCounters_value_of_not_mem _ _ _ _ hsel.1, QMap.value_insert]
      simp
    | succ i =>
      simp only [List.getElem?_cons_succ] at hi
      simp only [indexCounters]
      rw [ih hsel.2 _ _ _ hi]
      omega

/-! ## The row map -/

theorem eventIdToRow_spec {D : Type} (rs : List (CounterResult D)) (m : QMap Nat)
    (pre : List Nat)
    (hc : ∀ k, QMap.contains m k = true ↔ k ∈ pre)
    (hs : QMap.size m = pre.toFinset.card)
    (hv : ∀ k ∈ pre, QMap.value 0 m k = (pre.take (pre.indexOf k)).toFinset.card) :
    (∀ k, QMap.contains (eventIdToRow AssignOrder.sizeFirst rs m) k = true ↔
        k ∈ pre ++ rs.map (fun r => r.eventID)) ∧
    QMap.size (eventIdToRow AssignOrder.sizeFirst rs m) = (pre ++ rs.map (fun r => r.eventID)).toFinset.card ∧
    ∀ k ∈ pre ++ rs.map (fun r => r.eventID),
      QMap.value 0 (eventIdToRow AssignOrder.sizeFirst rs m) k =
        ((pre ++ rs.map (fun r => r.eventID)).take
          ((pre ++ rs.map (fun r => r.eventID)).indexOf k)).toFinset.card := by
  induction rs generalizing m pre with
  | nil => simpa [eventIdToRow] using ⟨hc, hs, hv⟩
  | cons r rest ih =>
    have hassoc : pre ++ (r :: rest).map (fun r => r.eventID) =
        (pre ++ [r.eventID]) ++ rest.map (fun r => r.eventID) := by simp
    rw [hassoc]
    unfold eventIdToRow
    by_cases hin : QMap.contains m r.eventID = true
    · have hmem : r.eventID ∈ pre := (hc _).mp hin
      simp only [hin, if_true]
      apply ih
      · intro k
        rw [hc k]
        constructor
        · intro h; exact List.mem_append_left _ h
        · intro h
          rcases List.mem_append.mp h with h | h
          · exact h
          · simp only [List.mem_singleton] at h
            exact h ▸ hmem
      · rw [hs]
        congr 1
        ext x
        simp only [List.mem_toFinset, List.mem_append, List.mem_singleton]
        constructor
        · intro h; exact Or.inl h
        · rintro (h | h)
          · exact h
          · exact h ▸ hmem
      · intro k hk
        have hk' : k ∈ pre := by
          rcases List.mem_append.mp hk with h | h
          · exact h
          · simp only [List.mem_singleton] at h
            exact h ▸ hmem
        rw [hv k hk', List.indexOf_append_of_mem hk',
          List.take_append_of_le_length List.indexOf_le_length]
    · have hnot : QMap.contains m r.eventID = false := by
        cases h : QMap.contains m r.eventID
        · rfl
        · exact absurd h hin
      have hnmem : r.eventID ∉ pre := fun h => hin ((hc _).mpr h)
      simp only [hnot, Bool.false_eq_true, if_false, assignRow]
      apply ih
      · intro k
        rw [QMap.contains_insert, Bool.or_eq_true, hc k, List.mem_append,
          List.mem_singleton]
        constructor
        · rintro (h | h)
          · exact Or.inr (of_decide_eq_true h).symm
          · exact Or.inl h
        · rintro (h | h)
          · exact Or.inr h
          · exact Or.inl (decide_eq_true h.symm)
      · rw [QMap.size_insert _ _ _ hnot, hs, List.toFinset_append]
        have hdis : Disjoint pre.toFinset [r.eventID].toFinset := by
          rw [Finset.disjoint_left]
          intro a ha hb
          simp only [List.mem_toFinset, List.mem_singleton] at ha hb
          exact hnmem (hb ▸ ha)
        rw [Finset.card_union_of_disjoint hdis]
        simp
      · intro k hk
        rw [QMap.value_insert]
        rcases List.mem_append.mp hk with h | h
        · have hne : r.eventID ≠ k := fun e => hnmem (e ▸ h)
          simp only [hne, if_false]
          rw [hv k h, List.indexOf_append_of_mem h,
            List.take_append_of_le_length List.indexOf_le_length]
        · simp only [List.mem_singleton] at h
          subst h
          simp only [if_true]
          rw [List.indexOf_append_of_not_mem hnmem, hs]
          simp

theorem eventIdToRow_empty_spec {D : Type} (order : AssignOrder)
    (ho : order = AssignOrder.sizeFirst) (results : List (CounterResult D)) :
    (∀ k, QMap.contains (eventIdToRow order results QMap.empty) k = true ↔
        k ∈ results.map (fun r => r.eventID)) ∧
    QMap.size (eventIdToRow order results QMap.empty) =
      (results.map (fun r => r.eventID)).toFinset.card ∧
    ∀ k ∈ results.map (fun r => r.eventID),
      QMap.value 0 (eventIdToRow order results QMap.empty) k =
        ((results.map (fun r => r.eventID)).take
          ((results.map (fun r => r.eventID)).indexOf k)).toFinset.card := by
  subst ho
  have h := eventIdToRow_spec results QMap.empty []
    (by intro k; simp [QMap.contains, QMap.empty]) (by simp [QMap.size, QMap.empty])
    (by intro k hk; simp at hk)
  simpa using h

theorem eventIdToRow_values_lt {D : Type} (rs : List (CounterResult D)) (m : QMap Nat)
    (hm : ∀ p ∈ m, p.2 < QMap.size m) :
    ∀ p ∈ eventIdToRow AssignOrder.sizeFirst rs m, p.2 < QMap.size (eventIdToRow AssignOrder.sizeFirst rs m) := by
  induction rs generalizing m with
  | nil => simpa [eventIdToRow] using hm
  | cons r rest ih =>
    unfold eventIdToRow
    by_cases hin : QMap.contains m r.eventID = true
    · simp only [hin, if_true]
      exact ih m hm
    · have hnot : QMap.contains m r.eventID = false := by
        cases h : QMap.contains m r.eventID
        · rfl
        · exact absurd h hin
      simp only [hnot, Bool.false_eq_true, if_false, assignRow]
      apply ih
      intro p hp
      rw [QMap.size_insert _ _ _ hnot]
      rcases QMap.mem_insert _ _ _ _ hp with h | h
      · subst h; simp
      · exact Nat.lt_succ_of_lt (hm p h)

theorem eventIdToRow_row_lt {D : Type} (order : AssignOrder)
    (ho : order = AssignOrder.sizeFirst) (results : List (CounterResult D))
    (r : CounterResult D) (hr : r ∈ results) :
    QMap.value 0 (eventIdToRow order results QMap.empty) r.eventID <
      QMap.size (eventIdToRow order results QMap.empty) := by
  subst ho
  have hc := (eventIdToRow_empty_spec AssignOrder.sizeFirst rfl results).1 r.eventID
  have hin : QMap.contains (eventIdToRow AssignOrder.sizeFirst results QMap.empty) r.eventID = true :=
    hc.mpr (List.mem_map_of_mem _ hr)
  exact eventIdToRow_values_lt results QMap.empty (by intro p hp; simp [QMap.empty] at hp)
    _ (QMap.value_mem 0 _ _ hin)

/-! ## The table -/

theorem QTableWidget.store_rowCount (t : QTableWidget) (row col : Nat)
    (it : QTableWidgetItem) : (t.store row col it).rowCount = t.rowCount := by
  unfold QTableWidget.store
  simp only
  split <;> rfl

theorem QTableWidget.store_columnCount (t : QTableWidget) (row col : Nat)
    (it : QTableWidgetItem) : (t.store row col it).columnCount = t.columnCount := by
  unfold QTableWidget.store
  simp only
  split <;> rfl

theorem QTableWidget.store_header (t : QTableWidget) (row col : Nat)
    (it : QTableWidgetItem) : (t.store row col it).header = t.header := by
  unfold QTableWidget.store
  simp only
  split <;> rfl

theorem div_mod_eq_iff (n a b : Nat) : (a / n = b / n ∧ a % n = b % n) ↔ a = b := by
  constructor
  · rintro ⟨h1, h2⟩
    rw [← Nat.div_add_mod a n, ← Nat.div_add_mod b n, h1, h2]
  · rintro rfl
    exact ⟨rfl, rfl⟩

/-- Reading a cell after a store: the stored item when both calls address the
same position of the item vector and that position exists, the old content
otherwise. -/
theorem QTableWidget.item_store (t : QTableWidget) (row col : Nat) (it : QTableWidgetItem)
    (r c : Nat) :
    (t.store row col it).item r c =
      if r * t.columnCount + c = row * t.columnCount + col ∧
          row * t.columnCount + col < t.rowCount * t.columnCount
      then some it else t.item r c := by
  unfold QTableWidget.store
  simp only
  by_cases hin : row * t.columnCount + col < t.rowCount * t.columnCount
  · simp only [hin, if_true, and_true]
    unfold QTableWidget.item
    simp only
    by_cases heq : r * t.columnCount + c = row * t.columnCount + col
    · simp [heq, hin]
    · simp only [heq, if_false]
      by_cases hr : r * t.columnCount + c < t.rowCount * t.columnCount
      · simp only [hr, if_true]
        have := div_mod_eq_iff t.columnCount (r * t.columnCount + c)
          (row * t.columnCount + col)
        have hne : ¬ ((r * t.columnCount + c) / t.columnCount =
            (row * t.columnCount + col) / t.columnCount ∧
            (r * t.columnCount + c) % t.columnCount =
            (row * t.columnCount + col) % t.columnCount) := fun h => heq (this.mp h)
        simp [hne]
      · simp [hr]
  · simp [hin]

theorem QTableWidget.run_append (t : QTableWidget) (a b : List TableOp) :
    t.run (a ++ b) = (t.run a).bind (fun t' => t'.run b) := by
  induction a generalizing t with
  | nil => simp [QTableWidget.run]
  | cons op ops ih =>
    simp only [List.cons_append, QTableWidget.run]
    cases h : t.exec op with
    | none => simp
    | some t' => simp [ih]

theorem in_range_of_row_lt (rows cols row : Nat) (hrow : row < rows) (hcol : 1 ≤ cols) :
    row * cols + 0 < rows * cols := by
  have h1 : (row + 1) * cols ≤ rows * cols := Nat.mul_le_mul_right _ hrow
  have h2 : (row + 1) * cols = row * cols + cols := by ring
  omega

/-- One iteration of the cell loop runs to completion on a table that has the
row and at least one column, and leaves the dimensions and headers alone. -/
theorem cellCalls_run {D : Type} (env : Env D) (timeunit : TimeUnit)
    (cd : QMap CounterDescription) (ci rows : QMap Nat) (result : CounterResult D)
    (t : QTableWidget) (hcol : 1 ≤ t.columnCount)
    (hrow : QMap.value 0 rows result.eventID < t.rowCount) :
    ∃ t', t.run (cellCalls env timeunit cd ci rows result) = some t' ∧
      t'.rowCount = t.rowCount ∧ t'.columnCount = t.columnCount ∧ t'.header = t.header := by
  have hin := in_range_of_row_lt t.rowCount t.columnCount _ hrow hcol
  simp only [cellCalls, QTableWidget.run, QTableWidget.exec]
  have hitem : ((t.store (QMap.value 0 rows result.eventID) 0
        { text := Nat.repr result.eventID, userRole := none }).store
        (QMap.value 0 rows result.eventID) (QMap.value 0 ci result.counterID + 1)
        { text := FormatCounterResult env timeunit result
            (QMap.value env.defaultDescription cd result.counterID),
          userRole := none }).item (QMap.value 0 rows result.eventID) 0 =
      some { text := Nat.repr result.eventID, userRole := none } := by
    rw [QTableWidget.item_store, QTableWidget.item_store]
    simp only [QTableWidget.store_columnCount, QTableWidget.store_rowCount]
    have hne : ¬ (QMap.value 0 rows result.eventID * t.columnCount + 0 =
        QMap.value 0 rows result.eventID * t.columnCount +
          (QMap.value 0 ci result.counterID + 1)) := by omega
    rw [if_neg (fun h => hne h.1)]
    exact if_pos ⟨trivial, hin⟩
  rw [hitem]
  exact ⟨_, rfl, by simp [QTableWidget.store_rowCount],
    by simp [QTableWidget.store_columnCount], by simp [QTableWidget.store_header]⟩

theorem cellLoop_run {D : Type} (env : Env D) (timeunit : TimeUnit)
    (cd : QMap CounterDescription) (ci rows : QMap Nat) (results : List (CounterResult D))
    (t : QTableWidget) (hcol : 1 ≤ t.columnCount)
    (hrow : ∀ r ∈ results, QMap.value 0 rows r.eventID < t.rowCount) :
    ∃ t', t.run (cellLoop env timeunit cd ci rows results) = some t' ∧
      t'.rowCount = t.rowCount ∧ t'.columnCount = t.columnCount ∧ t'.header = t.header := by
  induction results generalizing t with
  | nil => exact ⟨t, rfl, rfl, rfl, rfl⟩
  | cons r rest ih =>
    obtain ⟨t1, h1, hr1, hc1, hh1⟩ := cellCalls_run env timeunit cd ci rows r t hcol
      (hrow r (List.mem_cons_self _ _))
    obtain ⟨t2, h2, hr2, hc2, hh2⟩ := ih t1 (by omega)
      (fun r' hr' => by rw [hr1]; exact hrow r' (List.mem_cons_of_mem _ hr'))
    refine ⟨t2, ?_, by omega, by omega, by rw [hh2, hh1]⟩
    simp only [cellLoop]
    rw [QTableWidget.run_append, h1]
    simpa using h2

/-- In a build that evaluates `size()` first in line 153:
publishing runs to completion from every table, and the published table
has the row count, the column count and the headers the code computed. -/
theorem publishCalls_run {D : Type} (env : Env D) (timeunit : TimeUnit)
    (results : List (CounterResult D)) (cd : QMap CounterDescription) (ci : QMap Nat)
    (t : QTableWidget)
    (ho : env.order = AssignOrder.sizeFirst) :
    ∃ t', t.run (publishCalls env timeunit results cd ci) = some t' ∧
      t'.rowCount = QMap.size (eventIdToRow env.order results QMap.empty) ∧
      t'.columnCount = (headers cd).length ∧
      ∀ c, t'.header c = (headers cd)[c]? := by
  have h4 : ∃ t4, t.run [TableOp.clear, TableOp.setColumnCount (headers cd).length,
        TableOp.setHorizontalHeaderLabels (headers cd),
        TableOp.setRowCount (QMap.size (eventIdToRow env.order results QMap.empty))] = some t4 ∧
      t4.rowCount = QMap.size (eventIdToRow env.order results QMap.empty) ∧
      t4.columnCount = (headers cd).length ∧ ∀ c, t4.header c = (headers cd)[c]? := by
    refine ⟨_, rfl, rfl, rfl, ?_⟩
    intro c
    by_cases hc : c < (headers cd).length
    · simp [hc]
    · simp [hc, List.getElem?_eq_none (Nat.le_of_not_lt hc)]
  obtain ⟨t4, h4run, h4r, h4c, h4h⟩ := h4
  obtain ⟨t1, h1, hr1, hc1, hh1⟩ := cellLoop_run env timeunit cd ci
    (eventIdToRow env.order results QMap.empty) results t4
    (by rw [h4c]; simp [headers])
    (fun r hr => by rw [h4r]; exact eventIdToRow_row_lt env.order ho results r hr)
  refine ⟨t1, ?_, by rw [hr1, h4r], by rw [hc1, h4c], fun c => by rw [hh1, h4h]⟩
  unfold publishCalls
  simp only
  rw [QTableWidget.run_append, QTableWidget.run_append, h4run]
  simp only [Option.some_bind, h1]
  rfl

/-! ## CaptureCounters -/

theorem describeCounters_contains {D : Type} (ctx : Context D) (sel : List GPUCounter)
    (m : QMap CounterDescription) (log : List ReplayCall) (q : GPUCounter) :
    QMap.contains (describeCounters ctx sel (m, log)).1 q =
      (decide (q ∈ sel) || QMap.contains m q) := by
  induction sel generalizing m log with
  | nil => simp [describeCounters]
  | cons c cs ih =>
    simp only [describeCounters, ih, QMap.contains_insert, List.mem_cons]
    by_cases h1 : q ∈ cs <;> by_cases h2 : c = q
    · simp [h1]
    · simp [h1]
    · subst h2; simp
    · have h3 : ¬ q = c := fun h => h2 h.symm
      simp [h1, h2, h3]

theorem describeCounters_size {D : Type} (ctx : Context D) (sel : List GPUCounter)
    (hsel : sel.Nodup) (m : QMap CounterDescription) (log : List ReplayCall)
    (hm : ∀ c ∈ sel, QMap.contains m c = false) :
    QMap.size (describeCounters ctx sel (m, log)).1 = QMap.size m + sel.length := by
  induction sel generalizing m log with
  | nil => simp [describeCounters]
  | cons c cs ih =>
    rw [List.nodup_cons] at hsel
    simp only [describeCounters]
    rw [ih hsel.2 _ _, QMap.size_insert _ _ _ (hm c (List.mem_cons_self _ _))]
    · simp only [List.length_cons]; omega
    · intro c' hc'
      rw [QMap.contains_insert, hm c' (List.mem_cons_of_mem _ hc')]
      have : c ≠ c' := fun h => hsel.1 (h ▸ hc')
      simp [this]

theorem cellLoop_getElem {D : Type} (env : Env D) (timeunit : TimeUnit)
    (cd : QMap CounterDescription) (ci rows : QMap Nat) (results : List (CounterResult D))
    (j : Nat) (r : CounterResult D) (hr : results[j]? = some r) :
    (cellLoop env timeunit cd ci rows results)[3 * j + 1]? =
      some (TableOp.setItem (QMap.value 0 rows r.eventID)
        (QMap.value 0 ci r.counterID + 1)
        { text := FormatCounterResult env timeunit r
            (QMap.value env.defaultDescription cd r.counterID),
          userRole := none }) := by
  induction results generalizing j with
  | nil => simp at hr
  | cons r0 rest ih =>
    cases j with
    | zero =>
      simp only [List.getElem?_cons_zero, Option.some.injEq] at hr
      subst hr
      simp [cellLoop, cellCalls]
    | succ j =>
      simp only [List.getElem?_cons_succ] at hr
      have h3 : 3 * (j + 1) + 1 = (3 * j + 1) + 3 := by ring
      rw [h3]
      simp only [cellLoop, cellCalls, List.cons_append, List.nil_append,
        List.getElem?_cons_succ]
      exact ih j hr

/-- With a capture loaded and the selection accepted, `CaptureCounters` is the
publishing run on the old table, followed by the update of dialog count and
call logs; a publishing run that faults makes the whole call fault. -/
theorem CaptureCounters_of_accepted {D : Type} (env : Env D) (ctx : Context D)
    (pcs : PerformanceCounterSelection) (v : Viewer)
    (hl : ctx.LogLoaded = true) (ha : pcs.result = DialogCode.Accepted) :
    CaptureCounters env ctx pcs v =
      (v.counterResults.run (publishCalls env ctx.timeunit
        (ctx.FetchCounters pcs.selectedCounters)
        (describeCounters ctx pcs.selectedCounters (QMap.empty, v.replayCalls)).1
        (indexCounters pcs.selectedCounters 0 QMap.empty))).map
        (fun table =>
          { counterResults := table
            dialogsShown := v.dialogsShown + 1
            replayCalls :=
              (describeCounters ctx pcs.selectedCounters (QMap.empty, v.replayCalls)).2 ++
                [ReplayCall.FetchCounters pcs.selectedCounters]
            tableCalls := v.tableCalls ++ publishCalls env ctx.timeunit
              (ctx.FetchCounters pcs.selectedCounters)
              (describeCounters ctx pcs.selectedCounters (QMap.empty, v.replayCalls)).1
              (indexCounters pcs.selectedCounters 0 QMap.empty) }) := by
  simp only [CaptureCounters, hl, ha]
  cases v.counterResults.run (publishCalls env ctx.timeunit
      (ctx.FetchCounters pcs.selectedCounters)
      (describeCounters ctx pcs.selectedCounters (QMap.empty, v.replayCalls)).1
      (indexCounters pcs.selectedCounters 0 QMap.empty)) <;> simp

/-- In a build that evaluates `size()` first in line 153, with a capture loaded
and the selection accepted, `CaptureCounters` runs to
completion: the published table is the old one after the publishing calls, the
dialog was shown once, and the logs grew by the calls made. -/
theorem CaptureCounters_accepted {D : Type} (env : Env D) (ctx : Context D)
    (pcs : PerformanceCounterSelection) (v : Viewer)
    (hl : ctx.LogLoaded = true) (ha : pcs.result = DialogCode.Accepted)
    (ho : env.order = AssignOrder.sizeFirst) :
    ∃ table,
      v.counterResults.run (publishCalls env ctx.timeunit
        (ctx.FetchCounters pcs.selectedCounters)
        (describeCounters ctx pcs.selectedCounters (QMap.empty, v.replayCalls)).1
        (indexCounters pcs.selectedCounters 0 QMap.empty)) = some table ∧
      table.rowCount =
        QMap.size (eventIdToRow env.order (ctx.FetchCounters pcs.selectedCounters) QMap.empty) ∧
      table.columnCount =
        (headers (describeCounters ctx pcs.selectedCounters (QMap.empty, v.replayCalls)).1).length ∧
      (∀ c, table.header c =
        (headers (describeCounters ctx pcs.selectedCounters (QMap.empty, v.replayCalls)).1)[c]?) ∧
      CaptureCounters env ctx pcs v = some
        { counterResults := table
          dialogsShown := v.dialogsShown + 1
          replayCalls :=
            (describeCounters ctx pcs.selectedCounters (QMap.empty, v.replayCalls)).2 ++
              [ReplayCall.FetchCounters pcs.selectedCounters]
          tableCalls := v.tableCalls ++ publishCalls env ctx.timeunit
            (ctx.FetchCounters pcs.selectedCounters)
            (describeCounters ctx pcs.selectedCounters (QMap.empty, v.replayCalls)).1
            (indexCounters pcs.selectedCounters 0 QMap.empty) } := by
  obtain ⟨table, hrun, hr, hc, hh⟩ := publishCalls_run env ctx.timeunit
    (ctx.FetchCounters pcs.selectedCounters)
    (describeCounters ctx pcs.selectedCounters (QMap.empty, v.replayCalls)).1
    (indexCounters pcs.selectedCounters 0 QMap.empty) v.counterResults ho
  refine ⟨table, hrun, hr, hc, hh, ?_⟩
  simp only [CaptureCounters, hl, ha, hrun]
  simp

/-- C1: with counters selected in the order 2, 1, named "B" and "A", the
headers published are "EID", "A", "B" (key order of the description map), not
"EID", "B", "A"; column 1 is headed "A" while it holds the value of counter 2.
The last two conjuncts show the same header labels and the same column for
counter 2 in a build that evaluates `operator[]` first in line 153. -/
theorem CaptureCounters_headers_in_key_order :
    [2, 1].Nodup ∧
    "EID" :: [2, 1].map (fun c => (twoCounters.DescribeCounter c).name) = ["EID", "B", "A"] ∧
    headers (describeCounters twoCounters [2, 1] (QMap.empty, [])).1 = ["EID", "A", "B"] ∧
    (CaptureCounters decEnv twoCounters ⟨DialogCode.Accepted, [2, 1]⟩ freshViewer).map
        (fun v => (List.range 3).map v.counterResults.header) =
      some [some "EID", some "A", some "B"] ∧
    (CaptureCounters decEnv twoCounters ⟨DialogCode.Accepted, [2, 1]⟩ freshViewer).map
        (fun v => (List.range 3).map (fun c => (v.counterResults.item 0 c).map
          (fun it => it.text))) =
      some [some "7", some "20", some "10"] ∧
    (freshViewer.counterResults.run
        ((publishingOf decEnvKeyFirst twoCounters [2, 1]).take 4)).map
        (fun t => (List.range 3).map t.header) =
      some [some "EID", some "A", some "B"] ∧
    (publishingOf decEnvKeyFirst twoCounters [2, 1])[5]? =
      some (TableOp.setItem 1 1 { text := "20", userRole := none }) := by
  refine ⟨by decide, by decide, by decide, by decide, by decide, by decide, by decide⟩

/-- In a build that evaluates `size()` first in line 153, with a capture
loaded and the selection accepted, the published table has as many rows as
there are distinct eventIDs in the fetched results, and the row of every
eventID in them is the number of distinct eventIDs that occur before its first
occurrence. -/
theorem CaptureCounters_rows_first_seen {D : Type} (env : Env D) (ctx : Context D)
    (pcs : PerformanceCounterSelection) (v : Viewer)
    (hl : ctx.LogLoaded = true) (ha : pcs.result = DialogCode.Accepted)
    (ho : env.order = AssignOrder.sizeFirst) :
    ∃ v', CaptureCounters env ctx pcs v = some v' ∧
      v'.counterResults.rowCount =
        ((ctx.FetchCounters pcs.selectedCounters).map (fun r => r.eventID)).toFinset.card ∧
      QMap.size (eventIdToRow env.order (ctx.FetchCounters pcs.selectedCounters) QMap.empty) =
        ((ctx.FetchCounters pcs.selectedCounters).map (fun r => r.eventID)).toFinset.card ∧
      ∀ e ∈ (ctx.FetchCounters pcs.selectedCounters).map (fun r => r.eventID),
        QMap.value 0 (eventIdToRow env.order (ctx.FetchCounters pcs.selectedCounters) QMap.empty) e =
          (((ctx.FetchCounters pcs.selectedCounters).map (fun r => r.eventID)).take
            (((ctx.FetchCounters pcs.selectedCounters).map
              (fun r => r.eventID)).indexOf e)).toFinset.card := by
  obtain ⟨table, _, hr, _, _, hcap⟩ := CaptureCounters_accepted env ctx pcs v hl ha ho
  have hspec := eventIdToRow_empty_spec env.order ho (ctx.FetchCounters pcs.selectedCounters)
  exact ⟨_, hcap, by rw [← hspec.2.1]; exact hr, hspec.2.1, hspec.2.2⟩

theorem CaptureCounters_rows_first_seen_witness :
    unsortedEvents.LogLoaded = true ∧
    (⟨DialogCode.Accepted, [1]⟩ : PerformanceCounterSelection).result = DialogCode.Accepted ∧
    (unsortedEvents.FetchCounters [1]).map (fun r => r.eventID) = [7, 3, 7] ∧
    QMap.value 0 (eventIdToRow decEnv.order (unsortedEvents.FetchCounters [1]) QMap.empty) 7 = 0 ∧
    QMap.value 0 (eventIdToRow decEnv.order (unsortedEvents.FetchCounters [1]) QMap.empty) 3 = 1 ∧
    ∃ v', CaptureCounters decEnv unsortedEvents ⟨DialogCode.Accepted, [1]⟩ freshViewer =
        some v' ∧
      v'.counterResults.rowCount =
        ((unsortedEvents.FetchCounters [1]).map (fun r => r.eventID)).toFinset.card ∧
      QMap.size (eventIdToRow decEnv.order (unsortedEvents.FetchCounters [1]) QMap.empty) =
        ((unsortedEvents.FetchCounters [1]).map (fun r => r.eventID)).toFinset.card ∧
      ∀ e ∈ (unsortedEvents.FetchCounters [1]).map (fun r => r.eventID),
        QMap.value 0 (eventIdToRow decEnv.order (unsortedEvents.FetchCounters [1]) QMap.empty) e =
          (((unsortedEvents.FetchCounters [1]).map (fun r => r.eventID)).take
            (((unsortedEvents.FetchCounters [1]).map
              (fun r => r.eventID)).indexOf e)).toFinset.card :=
  ⟨rfl, rfl, by decide, by decide, by decide,
    CaptureCounters_rows_first_seen decEnv unsortedEvents ⟨DialogCode.Accepted, [1]⟩
      freshViewer rfl rfl rfl⟩

/-- In a build that evaluates `size()` first in line 153, with a capture
loaded and pairwise distinct counters accepted, the
j-th iteration of the cell loop calls setItem with the row of the result's
eventID, column i+1 for the i-th selected counter, and the text formatted with
that counter's description; row and column lie inside the published table. -/
theorem CaptureCounters_cell_column {D : Type} (env : Env D) (ctx : Context D)
    (pcs : PerformanceCounterSelection) (v : Viewer)
    (hl : ctx.LogLoaded = true) (ha : pcs.result = DialogCode.Accepted)
    (hsel : pcs.selectedCounters.Nodup)
    (ho : env.order = AssignOrder.sizeFirst) :
    ∃ v', CaptureCounters env ctx pcs v = some v' ∧
      ∀ (j i : Nat) (r : CounterResult D),
        (ctx.FetchCounters pcs.selectedCounters)[j]? = some r →
        pcs.selectedCounters[i]? = some r.counterID →
        v'.tableCalls[v.tableCalls.length + (4 + (3 * j + 1))]? =
          some (TableOp.setItem
            (QMap.value 0 (eventIdToRow env.order (ctx.FetchCounters pcs.selectedCounters) QMap.empty)
              r.eventID)
            (i + 1)
            { text := FormatCounterResult env ctx.timeunit r (ctx.DescribeCounter r.counterID),
              userRole := none }) ∧
        QMap.value 0 (eventIdToRow env.order (ctx.FetchCounters pcs.selectedCounters) QMap.empty)
          r.eventID < v'.counterResults.rowCount ∧
        i + 1 < v'.counterResults.columnCount := by
  obtain ⟨table, _, hr, hc, _, hcap⟩ := CaptureCounters_accepted env ctx pcs v hl ha ho
  refine ⟨_, hcap, ?_⟩
  intro j i r hj hi
  have hmem : r.counterID ∈ pcs.selectedCounters := List.getElem?_mem hi
  have hidx := indexCounters_value pcs.selectedCounters hsel 0 QMap.empty i r.counterID hi
  have hdesc := describeCounters_value ctx env.defaultDescription pcs.selectedCounters
    QMap.empty v.replayCalls r.counterID
  rw [if_pos hmem] at hdesc
  have hloop := cellLoop_getElem env ctx.timeunit
    (describeCounters ctx pcs.selectedCounters (QMap.empty, v.replayCalls)).1
    (indexCounters pcs.selectedCounters 0 QMap.empty)
    (eventIdToRow env.order (ctx.FetchCounters pcs.selectedCounters) QMap.empty)
    (ctx.FetchCounters pcs.selectedCounters) j r hj
  rw [hidx, hdesc, Nat.zero_add] at hloop
  have hilt : i < pcs.selectedCounters.length := by
    rcases Nat.lt_or_ge i pcs.selectedCounters.length with h | h
    · exact h
    · rw [List.getElem?_eq_none h] at hi
      exact absurd hi (by simp)
  refine ⟨?_, ?_, ?_⟩
  · simp only
    rw [List.getElem?_append_right (by omega)]
    have hsub : v.tableCalls.length + (4 + (3 * j + 1)) - v.tableCalls.length =
        (3 * j + 1) + 4 := by omega
    rw [hsub]
    unfold publishCalls
    simp only [List.cons_append, List.nil_append, List.getElem?_cons_succ]
    have hlen : 3 * j + 1 < (cellLoop env ctx.timeunit
        (describeCounters ctx pcs.selectedCounters (QMap.empty, v.replayCalls)).1
        (indexCounters pcs.selectedCounters 0 QMap.empty)
        (eventIdToRow env.order (ctx.FetchCounters pcs.selectedCounters) QMap.empty)
        (ctx.FetchCounters pcs.selectedCounters)).length := by
      rcases Nat.lt_or_ge (3 * j + 1) (cellLoop env ctx.timeunit
        (describeCounters ctx pcs.selectedCounters (QMap.empty, v.replayCalls)).1
        (indexCounters pcs.selectedCounters 0 QMap.empty)
        (eventIdToRow env.order (ctx.FetchCounters pcs.selectedCounters) QMap.empty)
        (ctx.FetchCounters pcs.selectedCounters)).length with h | h
      · exact h
      · rw [List.getElem?_eq_none h] at hloop
        exact absurd hloop (by simp)
    rw [List.getElem?_append_left hlen]
    exact hloop
  · simp only
    rw [hr]
    exact eventIdToRow_row_lt env.order ho _ r (List.getElem?_mem hj)
  · simp only
    rw [hc]
    simp only [headers, List.length_cons, QMap.values, List.length_map]
    have hs := describeCounters_size ctx pcs.selectedCounters hsel QMap.empty v.replayCalls
      (by intro c _; simp [QMap.contains, QMap.empty])
    simp only [QMap.size, QMap.empty, List.length_nil, Nat.zero_add] at hs
    simp only [QMap.empty]
    omega

theorem CaptureCounters_cell_column_witness :
    twoCounters.LogLoaded = true ∧
    (⟨DialogCode.Accepted, [2, 1]⟩ : PerformanceCounterSelection).result =
      DialogCode.Accepted ∧
    (⟨DialogCode.Accepted, [2, 1]⟩ : PerformanceCounterSelection).selectedCounters.Nodup ∧
    ∃ v', CaptureCounters decEnv twoCounters ⟨DialogCode.Accepted, [2, 1]⟩ freshViewer =
        some v' ∧
      ∀ (j i : Nat) (r : CounterResult Dec),
        (twoCounters.FetchCounters [2, 1])[j]? = some r →
        ([2, 1] : List GPUCounter)[i]? = some r.counterID →
        v'.tableCalls[freshViewer.tableCalls.length + (4 + (3 * j + 1))]? =
          some (TableOp.setItem
            (QMap.value 0 (eventIdToRow decEnv.order (twoCounters.FetchCounters [2, 1]) QMap.empty)
              r.eventID)
            (i + 1)
            { text := FormatCounterResult decEnv twoCounters.timeunit r
                (twoCounters.DescribeCounter r.counterID),
              userRole := none }) ∧
        QMap.value 0 (eventIdToRow decEnv.order (twoCounters.FetchCounters [2, 1]) QMap.empty)
          r.eventID < v'.counterResults.rowCount ∧
        i + 1 < v'.counterResults.columnCount :=
  ⟨rfl, rfl, by decide,
    CaptureCounters_cell_column decEnv twoCounters ⟨DialogCode.Accepted, [2, 1]⟩
      freshViewer rfl rfl (by decide) rfl⟩

/-- C8: without a loaded capture `CaptureCounters` leaves the viewer as it was
(the dialog is not shown); with a capture loaded and the dialog not accepted it
only counts the dialog as shown; hence a replay controller call, a table call
or a changed table implies a loaded capture and an accepted dialog, and so
does a run that faults while publishing. In a build that evaluates `size()`
first in line 153 every run completes. -/
theorem CaptureCounters_guards {D : Type} (env : Env D) (ctx : Context D)
    (pcs : PerformanceCounterSelection) (v : Viewer) :
    (env.order = AssignOrder.sizeFirst → ∃ v', CaptureCounters env ctx pcs v = some v') ∧
    (ctx.LogLoaded = false → CaptureCounters env ctx pcs v = some v) ∧
    (ctx.LogLoaded = true → pcs.result ≠ DialogCode.Accepted →
      CaptureCounters env ctx pcs v = some { v with dialogsShown := v.dialogsShown + 1 }) ∧
    (∀ v', CaptureCounters env ctx pcs v = some v' →
      (v'.replayCalls ≠ v.replayCalls ∨ v'.tableCalls ≠ v.tableCalls ∨
        v'.counterResults ≠ v.counterResults) →
      ctx.LogLoaded = true ∧ pcs.result = DialogCode.Accepted) ∧
    (CaptureCounters env ctx pcs v = none →
      ctx.LogLoaded = true ∧ pcs.result = DialogCode.Accepted) := by
  have hnl : ctx.LogLoaded = false → CaptureCounters env ctx pcs v = some v := by
    intro h
    simp [CaptureCounters, h]
  have hrej : ctx.LogLoaded = true → pcs.result ≠ DialogCode.Accepted →
      CaptureCounters env ctx pcs v = some { v with dialogsShown := v.dialogsShown + 1 } := by
    intro h1 h2
    simp [CaptureCounters, h1, h2]
  refine ⟨?_, hnl, hrej, ?_, ?_⟩
  · intro ho
    cases hl : ctx.LogLoaded with
    | false => exact ⟨_, hnl hl⟩
    | true =>
      by_cases ha : pcs.result = DialogCode.Accepted
      · obtain ⟨table, _, _, _, _, hcap⟩ := CaptureCounters_accepted env ctx pcs v hl ha ho
        exact ⟨_, hcap⟩
      · exact ⟨_, hrej hl ha⟩
  · intro v' hv' hchg
    cases hl : ctx.LogLoaded with
    | false =>
      rw [hnl hl] at hv'
      cases hv'
      rcases hchg with h | h | h <;> exact absurd rfl h
    | true =>
      by_cases ha : pcs.result = DialogCode.Accepted
      · exact ⟨rfl, ha⟩
      · rw [hrej hl ha] at hv'
        cases hv'
        rcases hchg with h | h | h <;> exact absurd rfl h
  · intro hnone
    cases hl : ctx.LogLoaded with
    | false =>
      rw [hnl hl] at hnone
      cases hnone
    | true =>
      by_cases ha : pcs.result = DialogCode.Accepted
      · exact ⟨rfl, ha⟩
      · rw [hrej hl ha] at hnone
        cases hnone

theorem CaptureCounters_guards_witness :
    notLoaded.LogLoaded = false ∧
    CaptureCounters decEnv notLoaded ⟨DialogCode.Accepted, [1]⟩ freshViewer =
      some freshViewer ∧
    twoCounters.LogLoaded = true ∧
    (⟨DialogCode.Rejected, [2, 1]⟩ : PerformanceCounterSelection).result ≠
      DialogCode.Accepted ∧
    CaptureCounters decEnv twoCounters ⟨DialogCode.Rejected, [2, 1]⟩ freshViewer =
      some { freshViewer with dialogsShown := freshViewer.dialogsShown + 1 } :=
  ⟨rfl,
    (CaptureCounters_guards decEnv notLoaded ⟨DialogCode.Accepted, [1]⟩ freshViewer).2.1 rfl,
    rfl, by decide,
    (CaptureCounters_guards decEnv twoCounters ⟨DialogCode.Rejected, [2, 1]⟩
      freshViewer).2.2.1 rfl (by decide)⟩

/-- C9: with counter 5 selected and a fetch that returns samples of counter 9
at events 1 and 2, no result is a sample of counter 5, and yet cells of
counter 5's column 1 hold items. In a build that evaluates `size()` first in
line 153 the published table has an item in (0, 1) and in (1, 1). In a build
that evaluates `operator[]` first the sixth call is setItem(1, 1, ..), and
after the first sample's three calls the table holds an item in (1, 1); the
run then faults on the second sample. -/
theorem CaptureCounters_stray_counter_fills_column_one :
    (twoStraySamples.FetchCounters [5]).map (fun r => (r.eventID, r.counterID)) =
      [(1, 9), (2, 9)] ∧
    (∀ r ∈ twoStraySamples.FetchCounters [5], r.counterID ≠ 5) ∧
    QMap.value 0 (indexCounters [5] 0 QMap.empty) 9 + 1 = 1 ∧
    (CaptureCounters decEnv twoStraySamples ⟨DialogCode.Accepted, [5]⟩ freshViewer).map
        (fun v => (v.counterResults.rowCount, v.counterResults.columnCount,
          (v.counterResults.item 0 1).isSome, (v.counterResults.item 1 1).isSome)) =
      some (2, 2, true, true) ∧
    (publishingOf decEnvKeyFirst twoStraySamples [5])[5]? =
      some (TableOp.setItem 1 1 { text := "", userRole := none }) ∧
    (freshViewer.counterResults.run
        ((publishingOf decEnvKeyFirst twoStraySamples [5]).take 7)).map
        (fun t => (t.rowCount, t.columnCount, (t.item 1 1).isSome)) =
      some (2, 2, true) ∧
    (CaptureCounters decEnvKeyFirst twoStraySamples ⟨DialogCode.Accepted, [5]⟩
      freshViewer).isSome = false := by
  refine ⟨by decide, by decide, by decide, by decide, by decide, by decide, by decide⟩

/-! ## FormatCounterResult on seconds -/

/-- C11, as stated, fails: a Seconds-unit Double of 2.5 under Nanoseconds is
rendered in exponent form, "2.5e+09 ns", not as "2500000000 ns". -/
theorem FormatCounterResult_nanoseconds_exponent_form :
    (sample 1 3 0).value.d = ⟨25, -1⟩ ∧
    FormatCounterResult decEnv TimeUnit.Nanoseconds (sample 1 3 0)
        (describe 3 "gpu time" CompType.Double 8 CounterUnit.Seconds) = "2.5e+09 ns" ∧
    FormatCounterResult decEnv TimeUnit.Nanoseconds (sample 1 3 0)
        (describe 3 "gpu time" CompType.Double 8 CounterUnit.Seconds) ≠
      "2500000000 " ++ decEnv.UnitSuffix TimeUnit.Nanoseconds := by
  decide

/-- C11, amended: over exact decimals with the format-g, precision-6 rendering
and any time-unit suffix, a Seconds-unit Float or Double of 2.5 formats to
"2500 " plus the millisecond suffix under Milliseconds and to "2.5e+09 " plus
the nanosecond suffix under Nanoseconds. -/
theorem FormatCounterResult_seconds_two_and_a_half (suffix : TimeUnit → String)
    (result : CounterResult Dec) (description : CounterDescription)
    (hunit : description.unit = CounterUnit.Seconds)
    (hval : (description.resultType = CompType.Float ∧ result.value.f = ⟨25, -1⟩) ∨
      (description.resultType = CompType.Double ∧ result.value.d = ⟨25, -1⟩)) :
    FormatCounterResult { decEnv with UnitSuffix := suffix } TimeUnit.Milliseconds result
        description = "2500 " ++ suffix TimeUnit.Milliseconds ∧
    FormatCounterResult { decEnv with UnitSuffix := suffix } TimeUnit.Nanoseconds result
        description = "2.5e+09 " ++ suffix TimeUnit.Nanoseconds := by
  obtain ⟨cid, name, ty, w, unit⟩ := description
  simp only at hunit hval
  subst hunit
  have hms : Dec.number (Dec.mul (Dec.mul (Dec.ofNat 1) (Dec.ofNat 1000)) ⟨25, -1⟩) =
      "2500" := by decide
  have hns : Dec.number (Dec.mul (Dec.mul (Dec.ofNat 1) (Dec.ofNat 1000000000)) ⟨25, -1⟩) =
      "2.5e+09" := by decide
  have h1 : ∀ s : String, "2500" ++ (" " ++ s) = "2500 " ++ s := by
    intro s
    rw [← String.append_assoc]
    rfl
  have h2 : ∀ s : String, "2.5e+09" ++ (" " ++ s) = "2.5e+09 " ++ s := by
    intro s
    rw [← String.append_assoc]
    rfl
  rcases hval with ⟨hty, hv⟩ | ⟨hty, hv⟩ <;> subst hty <;>
    simp only [FormatCounterResult, decEnv, hv, hms, hns] <;> simp [hms, hns] <;>
    exact ⟨h1 _, h2 _⟩

theorem FormatCounterResult_seconds_two_and_a_half_witness :
    (describe 3 "gpu time" CompType.Double 8 CounterUnit.Seconds).unit = CounterUnit.Seconds ∧
    (((describe 3 "gpu time" CompType.Double 8 CounterUnit.Seconds).resultType =
        CompType.Float ∧ (sample 1 3 0).value.f = ⟨25, -1⟩) ∨
      ((describe 3 "gpu time" CompType.Double 8 CounterUnit.Seconds).resultType =
        CompType.Double ∧ (sample 1 3 0).value.d = ⟨25, -1⟩)) ∧
    FormatCounterResult { decEnv with UnitSuffix := UnitSuffix } TimeUnit.Milliseconds
        (sample 1 3 0) (describe 3 "gpu time" CompType.Double 8 CounterUnit.Seconds) =
      "2500 " ++ UnitSuffix TimeUnit.Milliseconds ∧
    FormatCounterResult { decEnv with UnitSuffix := UnitSuffix } TimeUnit.Nanoseconds
        (sample 1 3 0) (describe 3 "gpu time" CompType.Double 8 CounterUnit.Seconds) =
      "2.5e+09 " ++ UnitSuffix TimeUnit.Nanoseconds :=
  ⟨rfl, Or.inr ⟨rfl, rfl⟩,
    FormatCounterResult_seconds_two_and_a_half UnitSuffix (sample 1 3 0)
      (describe 3 "gpu time" CompType.Double 8 CounterUnit.Seconds) rfl (Or.inr ⟨rfl, rfl⟩)⟩

/-- C14: an integer counter of 5 seconds under Milliseconds is returned as
"5 ms", the unscaled integer followed by the millisecond suffix; no error is
raised. -/
theorem FormatCounterResult_UInt_seconds_unscaled :
    FormatCounterResult decEnv TimeUnit.Milliseconds (sample 1 1 5)
        (describe 1 "elapsed" CompType.UInt 4 CounterUnit.Seconds) =
      "5 " ++ decEnv.UnitSuffix TimeUnit.Milliseconds ∧
    FormatCounterResult decEnv TimeUnit.Milliseconds (sample 1 1 5)
        (describe 1 "elapsed" CompType.UInt 4 CounterUnit.Seconds) = "5 ms" := by
  decide

/-! ## The call log and repeated selections -/

theorem describeCounters_log {D : Type} (ctx : Context D) (sel : List GPUCounter)
    (m : QMap CounterDescription) (log : List ReplayCall) :
    (describeCounters ctx sel (m, log)).2 = log ++ sel.map ReplayCall.DescribeCounter := by
  induction sel generalizing m log with
  | nil => simp [describeCounters]
  | cons c cs ih => simp [describeCounters, ih]

/-- C13: with a capture loaded and the selection accepted, the replay
controller log that the fetch step builds, and that every completed run
stores, is the old log followed by one DescribeCounter per position of the
selection, in order, and then one FetchCounters of the whole selection; the
description map holds for every selected counter what DescribeCounter answered
for it. In a build that evaluates `size()` first in line 153 the run
completes. -/
theorem CaptureCounters_replay_calls {D : Type} (env : Env D) (ctx : Context D)
    (pcs : PerformanceCounterSelection) (v : Viewer)
    (hl : ctx.LogLoaded = true) (ha : pcs.result = DialogCode.Accepted) :
    (env.order = AssignOrder.sizeFirst →
      ∃ v', CaptureCounters env ctx pcs v = some v' ∧
        v'.replayCalls = v.replayCalls ++
          (pcs.selectedCounters.map ReplayCall.DescribeCounter ++
            [ReplayCall.FetchCounters pcs.selectedCounters])) ∧
    (∀ v', CaptureCounters env ctx pcs v = some v' →
      v'.replayCalls = v.replayCalls ++
        (pcs.selectedCounters.map ReplayCall.DescribeCounter ++
          [ReplayCall.FetchCounters pcs.selectedCounters])) ∧
    (describeCounters ctx pcs.selectedCounters (QMap.empty, v.replayCalls)).2 ++
        [ReplayCall.FetchCounters pcs.selectedCounters] =
      v.replayCalls ++
        (pcs.selectedCounters.map ReplayCall.DescribeCounter ++
          [ReplayCall.FetchCounters pcs.selectedCounters]) ∧
    ∀ c ∈ pcs.selectedCounters,
      QMap.value env.defaultDescription
        (describeCounters ctx pcs.selectedCounters (QMap.empty, v.replayCalls)).1 c =
        ctx.DescribeCounter c := by
  have hlog : (describeCounters ctx pcs.selectedCounters (QMap.empty, v.replayCalls)).2 ++
        [ReplayCall.FetchCounters pcs.selectedCounters] =
      v.replayCalls ++
        (pcs.selectedCounters.map ReplayCall.DescribeCounter ++
          [ReplayCall.FetchCounters pcs.selectedCounters]) := by
    rw [describeCounters_log, List.append_assoc]
  have hret : ∀ v', CaptureCounters env ctx pcs v = some v' →
      v'.replayCalls = v.replayCalls ++
        (pcs.selectedCounters.map ReplayCall.DescribeCounter ++
          [ReplayCall.FetchCounters pcs.selectedCounters]) := by
    intro v' hv'
    rw [CaptureCounters_of_accepted env ctx pcs v hl ha] at hv'
    obtain ⟨table, _, hv⟩ := Option.map_eq_some'.mp hv'
    rw [← hv]
    exact hlog
  refine ⟨?_, hret, hlog, ?_⟩
  · intro ho
    obtain ⟨table, _, _, _, _, hcap⟩ := CaptureCounters_accepted env ctx pcs v hl ha ho
    exact ⟨_, hcap, hret _ hcap⟩
  · intro c hc
    rw [describeCounters_value, if_pos hc]

theorem CaptureCounters_replay_calls_witness :
    twoCounters.LogLoaded = true ∧
    (⟨DialogCode.Accepted, [2, 1]⟩ : PerformanceCounterSelection).result =
      DialogCode.Accepted ∧
    decEnv.order = AssignOrder.sizeFirst ∧
    (CaptureCounters decEnv twoCounters ⟨DialogCode.Accepted, [2, 1]⟩ freshViewer).map
        (fun v => v.replayCalls) =
      some [ReplayCall.DescribeCounter 2, ReplayCall.DescribeCounter 1,
        ReplayCall.FetchCounters [2, 1]] ∧
    (∃ v', CaptureCounters decEnv twoCounters ⟨DialogCode.Accepted, [2, 1]⟩ freshViewer =
        some v' ∧
      v'.replayCalls = freshViewer.replayCalls ++
        (([2, 1] : List GPUCounter).map ReplayCall.DescribeCounter ++
          [ReplayCall.FetchCounters [2, 1]])) ∧
    ∀ c ∈ ([2, 1] : List GPUCounter),
      QMap.value decEnv.defaultDescription
        (describeCounters twoCounters [2, 1] (QMap.empty, freshViewer.replayCalls)).1 c =
        twoCounters.DescribeCounter c :=
  ⟨rfl, rfl, rfl, by decide,
    (CaptureCounters_replay_calls decEnv twoCounters ⟨DialogCode.Accepted, [2, 1]⟩
      freshViewer rfl rfl).1 rfl,
    (CaptureCounters_replay_calls decEnv twoCounters ⟨DialogCode.Accepted, [2, 1]⟩
      freshViewer rfl rfl).2.2.2⟩

/-- C12: with counter 5 selected twice the description map has one entry, so
the published table gets 2 columns, not 1 + 2. The last two conjuncts show the
same column count in a build that evaluates `operator[]` first in line 153. -/
theorem CaptureCounters_repeated_selection_column_count :
    1 + ([5, 5] : List GPUCounter).length = 3 ∧
    headers (describeCounters repeatedCounter [5, 5] (QMap.empty, [])).1 = ["EID", "C"] ∧
    (CaptureCounters decEnv repeatedCounter ⟨DialogCode.Accepted, [5, 5]⟩ freshViewer).map
        (fun v => (v.counterResults.columnCount, v.tableCalls[1]?)) =
      some (2, some (TableOp.setColumnCount 2)) ∧
    (publishingOf decEnvKeyFirst repeatedCounter [5, 5])[1]? =
      some (TableOp.setColumnCount 2) ∧
    (freshViewer.counterResults.run
        ((publishingOf decEnvKeyFirst repeatedCounter [5, 5]).take 4)).map
        (fun t => t.columnCount) = some 2 := by
  refine ⟨by decide, by decide, by decide, by decide, by decide⟩

/-- C16: with counter 5 selected and two samples of the pair (1, 5), reading
10 and then 11, a build that evaluates `operator[]` first in line 153 gives
event 1 the row 1 of a table sized with setRowCount(1): both samples are
addressed to row 1, column 1, outside the table, the run faults on the first
sample, and cell (0, 1) never holds "11". A build that evaluates `size()`
first publishes "11" in cell (0, 1). -/
theorem CaptureCounters_duplicates_key_first_fault :
    (duplicateSamples.FetchCounters [5]).map (fun r => (r.eventID, r.counterID)) =
      [(1, 5), (1, 5)] ∧
    FormatCounterResult decEnvKeyFirst duplicateSamples.timeunit (sample 1 5 11)
      (duplicateSamples.DescribeCounter 5) = "11" ∧
    (publishingOf decEnvKeyFirst duplicateSamples [5]).filter (fun op =>
        match op with
        | TableOp.setRowCount _ => true
        | TableOp.setItem _ col _ => decide (1 ≤ col)
        | _ => false) =
      [TableOp.setRowCount 1,
        TableOp.setItem 1 1 { text := "10", userRole := none },
        TableOp.setItem 1 1 { text := "11", userRole := none }] ∧
    (freshViewer.counterResults.run
        ((publishingOf decEnvKeyFirst duplicateSamples [5]).take 6)).map
        (fun t => (t.rowCount, t.columnCount, t.item 0 1)) = some (1, 2, none) ∧
    (freshViewer.counterResults.run
        ((publishingOf decEnvKeyFirst duplicateSamples [5]).take 7)).isSome = false ∧
    (CaptureCounters decEnvKeyFirst duplicateSamples ⟨DialogCode.Accepted, [5]⟩
      freshViewer).isSome = false ∧
    (CaptureCounters decEnv duplicateSamples ⟨DialogCode.Accepted, [5]⟩ freshViewer).map
        (fun v => (v.counterResults.rowCount, v.counterResults.item 0 1)) =
      some (1, some { text := "11", userRole := none }) := by
  refine ⟨by decide, by decide, by decide, by decide, by decide, by decide, by decide⟩

/-- C17: with counter 5 selected and samples at events 1, 2, 1, a build that
evaluates `operator[]` first in line 153 sizes the table with setRowCount(2)
and assigns event 1 the row 1 and event 2 the row 2, so no eventID has row 0.
After the first sample row 0 has no item in column 0 and a double click on it
reads back nothing; the second sample is addressed to row 2, its item is not
stored, and the run faults on `item(2, 0)->setData`. -/
theorem CaptureCounters_column_zero_key_first_fault :
    (repeatedCounter.FetchCounters [5]).map (fun r => r.eventID) = [1, 2, 1] ∧
    QMap.value 0 (eventIdToRow AssignOrder.keyFirst (repeatedCounter.FetchCounters [5])
      QMap.empty) 1 = 1 ∧
    QMap.value 0 (eventIdToRow AssignOrder.keyFirst (repeatedCounter.FetchCounters [5])
      QMap.empty) 2 = 2 ∧
    (publishingOf decEnvKeyFirst repeatedCounter [5])[3]? = some (TableOp.setRowCount 2) ∧
    (publishingOf decEnvKeyFirst repeatedCounter [5])[7]? =
      some (TableOp.setItem 2 0 { text := "2", userRole := none }) ∧
    (publishingOf decEnvKeyFirst repeatedCounter [5])[9]? =
      some (TableOp.setItemData 2 0 2) ∧
    (freshViewer.counterResults.run
        ((publishingOf decEnvKeyFirst repeatedCounter [5]).take 9)).map
        (fun t => (t.rowCount, t.item 0 0, on_counterResults_doubleClicked t 0,
          t.item 1 0)) =
      some (2, none, none, some { text := "1", userRole := some 1 }) ∧
    (freshViewer.counterResults.run
        ((publishingOf decEnvKeyFirst repeatedCounter [5]).take 10)).isSome = false ∧
    (CaptureCounters decEnvKeyFirst repeatedCounter ⟨DialogCode.Accepted, [5]⟩
      freshViewer).isSome = false := by
  refine ⟨by decide, by decide, by decide, by decide, by decide, by decide, by decide,
    by decide, by decide⟩

/-- C18: with counter 5 selected twice, every result is a sample of a selected
counter, the table is sized with setColumnCount(2) and setRowCount(2), and the
cell loop calls setItem with column 2. The last three conjuncts show the call
setItem(1, 2, ..) after setColumnCount(2) in a build that evaluates
`operator[]` first in line 153. -/
theorem CaptureCounters_repeated_selection_writes_outside :
    (∀ r ∈ repeatedCounter.FetchCounters [5, 5], r.counterID ∈ ([5, 5] : List GPUCounter)) ∧
    (CaptureCounters decEnv repeatedCounter ⟨DialogCode.Accepted, [5, 5]⟩ freshViewer).map
        (fun v => v.tableCalls.filter (fun op =>
          match op with
          | TableOp.setColumnCount _ => true
          | TableOp.setRowCount _ => true
          | TableOp.setItem _ col _ => decide (1 ≤ col)
          | _ => false)) =
      some [TableOp.setColumnCount 2, TableOp.setRowCount 2,
        TableOp.setItem 0 2 { text := "10", userRole := none },
        TableOp.setItem 1 2 { text := "20", userRole := none },
        TableOp.setItem 0 2 { text := "11", userRole := none }] ∧
    (publishingOf decEnvKeyFirst repeatedCounter [5, 5])[1]? =
      some (TableOp.setColumnCount 2) ∧
    (publishingOf decEnvKeyFirst repeatedCounter [5, 5])[5]? =
      some (TableOp.setItem 1 2 { text := "10", userRole := none }) ∧
    (freshViewer.counterResults.run
        ((publishingOf decEnvKeyFirst repeatedCounter [5, 5]).take 6)).isSome = true := by
  refine ⟨by decide, by decide, by decide, by decide, by decide⟩

/-! ## What the published cells hold -/

theorem QMap.contains_of_mem {V : Type} (m : QMap V) (p : Nat × V) (hp : p ∈ m) :
    QMap.contains m p.1 = true := by
  simp only [QMap.contains, List.any_eq_true]
  exact ⟨p, hp, by simp⟩

theorem QMap.mem_insert_self {V : Type} (m : QMap V) (k : Nat) (v : V) :
    (k, v) ∈ QMap.insert m k v := by
  induction m with
  | nil => simp [QMap.insert]
  | cons p rest ih =>
    obtain ⟨k', v'⟩ := p
    unfold QMap.insert
    by_cases h1 : k < k'
    · simp [h1]
    · by_cases h2 : k' < k
      · simp only [h1, h2, if_true, if_false]
        exact List.mem_cons_of_mem _ ih
      · simp [h1, h2]

theorem QMap.mem_insert_of_mem {V : Type} (m : QMap V) (k : Nat) (v : V) (p : Nat × V)
    (hp : p ∈ m) (hne : p.1 ≠ k) : p ∈ QMap.insert m k v := by
  induction m with
  | nil => simp at hp
  | cons p' rest ih =>
    obtain ⟨k', v'⟩ := p'
    unfold QMap.insert
    by_cases h1 : k < k'
    · simp only [h1, if_true]
      exact List.mem_cons_of_mem _ hp
    · by_cases h2 : k' < k
      · simp only [h1, h2, if_true, if_false]
        rcases List.mem_cons.mp hp with h | h
        · rw [h]; exact List.mem_cons_self _ _
        · exact List.mem_cons_of_mem _ (ih h)
      · have hk : k' = k := by omega
        simp only [h1, h2, if_false]
        rcases List.mem_cons.mp hp with h | h
        · rw [h] at hne
          exact absurd hk hne
        · exact List.mem_cons_of_mem _ h

/-- The row map numbers its keys: looking up the key of an entry gives its
row, different keys have different rows, and every number below the size is
the row of a key. -/
theorem eventIdToRow_numbering {D : Type} (rs : List (CounterResult D)) (m : QMap Nat)
    (hlt : ∀ p ∈ m, p.2 < QMap.size m)
    (hfun : ∀ p ∈ m, QMap.value 0 m p.1 = p.2)
    (hinj : ∀ p ∈ m, ∀ q ∈ m, p.2 = q.2 → p.1 = q.1)
    (hsur : ∀ ρ, ρ < QMap.size m → ∃ p ∈ m, p.2 = ρ) :
    (∀ p ∈ eventIdToRow AssignOrder.sizeFirst rs m, QMap.value 0 (eventIdToRow AssignOrder.sizeFirst rs m) p.1 = p.2) ∧
    (∀ p ∈ eventIdToRow AssignOrder.sizeFirst rs m, ∀ q ∈ eventIdToRow AssignOrder.sizeFirst rs m, p.2 = q.2 → p.1 = q.1) ∧
    (∀ ρ, ρ < QMap.size (eventIdToRow AssignOrder.sizeFirst rs m) → ∃ p ∈ eventIdToRow AssignOrder.sizeFirst rs m, p.2 = ρ) := by
  induction rs generalizing m with
  | nil => exact ⟨hfun, hinj, hsur⟩
  | cons r rest ih =>
    unfold eventIdToRow
    by_cases hin : QMap.contains m r.eventID = true
    · simp only [hin, if_true]
      exact ih m hlt hfun hinj hsur
    · have hnot : QMap.contains m r.eventID = false := by
        cases h : QMap.contains m r.eventID
        · rfl
        · exact absurd h hin
      simp only [hnot, Bool.false_eq_true, if_false, assignRow]
      have hsize := QMap.size_insert m r.eventID (QMap.size m) hnot
      have hkey : ∀ p ∈ m, p.1 ≠ r.eventID := by
        intro p hp he
        have := QMap.contains_of_mem m p hp
        rw [he, hnot] at this
        exact absurd this (by simp)
      apply ih
      · intro p hp
        rw [hsize]
        rcases QMap.mem_insert _ _ _ _ hp with h | h
        · subst h; simp
        · exact Nat.lt_succ_of_lt (hlt p h)
      · intro p hp
        rw [QMap.value_insert]
        rcases QMap.mem_insert _ _ _ _ hp with h | h
        · subst h; simp
        · have hne : r.eventID ≠ p.1 := fun e => hkey p h e.symm
          simp only [hne, if_false]
          exact hfun p h
      · intro p hp q hq hpq
        rcases QMap.mem_insert _ _ _ _ hp with h1 | h1 <;>
          rcases QMap.mem_insert _ _ _ _ hq with h2 | h2
        · rw [h1, h2]
        · have := hlt q h2
          rw [h1] at hpq
          simp only at hpq
          omega
        · have := hlt p h1
          rw [h2] at hpq
          simp only at hpq
          omega
        · exact hinj p h1 q h2 hpq
      · intro ρ hρ
        rw [hsize] at hρ
        by_cases hlast : ρ = QMap.size m
        · exact ⟨(r.eventID, QMap.size m), QMap.mem_insert_self _ _ _, hlast.symm⟩
        · obtain ⟨p, hp, hpρ⟩ := hsur ρ (by omega)
          exact ⟨p, QMap.mem_insert_of_mem _ _ _ _ hp (hkey p hp), hpρ⟩

theorem eventIdToRow_empty_numbering {D : Type} (order : AssignOrder)
    (ho : order = AssignOrder.sizeFirst) (results : List (CounterResult D)) :
    (∀ p ∈ eventIdToRow order results QMap.empty,
      QMap.value 0 (eventIdToRow order results QMap.empty) p.1 = p.2) ∧
    (∀ p ∈ eventIdToRow order results QMap.empty, ∀ q ∈ eventIdToRow order results QMap.empty,
      p.2 = q.2 → p.1 = q.1) ∧
    (∀ ρ, ρ < QMap.size (eventIdToRow order results QMap.empty) →
      ∃ p ∈ eventIdToRow order results QMap.empty, p.2 = ρ) := by
  subst ho
  exact eventIdToRow_numbering results QMap.empty (by intro p hp; simp [QMap.empty] at hp)
    (by intro p hp; simp [QMap.empty] at hp)
    (by intro p hp; simp [QMap.empty] at hp)
    (by intro ρ hρ; simp [QMap.size, QMap.empty] at hρ)

/-- Two results with the same row have the same eventID. -/
theorem eventIdToRow_row_injective {D : Type} (order : AssignOrder)
    (ho : order = AssignOrder.sizeFirst) (results : List (CounterResult D))
    (r r' : CounterResult D) (hr : r ∈ results) (hr' : r' ∈ results)
    (h : QMap.value 0 (eventIdToRow order results QMap.empty) r.eventID =
      QMap.value 0 (eventIdToRow order results QMap.empty) r'.eventID) :
    r.eventID = r'.eventID := by
  subst ho
  have hc := (eventIdToRow_empty_spec AssignOrder.sizeFirst rfl results).1
  have h1 := QMap.value_mem 0 _ _ ((hc r.eventID).mpr (List.mem_map_of_mem _ hr))
  have h2 := QMap.value_mem 0 _ _ ((hc r'.eventID).mpr (List.mem_map_of_mem _ hr'))
  exact (eventIdToRow_empty_numbering AssignOrder.sizeFirst rfl results).2.1 _ h1 _ h2 h

/-- Every row below the row count is the row of some result. -/
theorem eventIdToRow_row_surjective {D : Type} (order : AssignOrder)
    (ho : order = AssignOrder.sizeFirst) (results : List (CounterResult D))
    (ρ : Nat) (hρ : ρ < QMap.size (eventIdToRow order results QMap.empty)) :
    ∃ r ∈ results, QMap.value 0 (eventIdToRow order results QMap.empty) r.eventID = ρ := by
  subst ho
  have hnum := eventIdToRow_empty_numbering AssignOrder.sizeFirst rfl results
  obtain ⟨p, hp, hpρ⟩ := hnum.2.2 ρ hρ
  have hc := ((eventIdToRow_empty_spec AssignOrder.sizeFirst rfl results).1 p.1).mp (QMap.contains_of_mem _ p hp)
  obtain ⟨r, hr, hre⟩ := List.mem_map.mp hc
  refine ⟨r, hr, ?_⟩
  rw [hre, hnum.1 p hp, hpρ]

theorem flat_lt (R C ρ c : Nat) (hρ : ρ < R) (hc : c < C) : ρ * C + c < R * C := by
  have h1 : (ρ + 1) * C ≤ R * C := Nat.mul_le_mul_right _ hρ
  have h2 : (ρ + 1) * C = ρ * C + C := by ring
  omega

theorem coord_eq_iff (C ρ c row col : Nat) (hc : c < C) (hcol : col < C) :
    ρ * C + c = row * C + col ↔ ρ = row ∧ c = col := by
  constructor
  · intro h
    rcases Nat.lt_trichotomy ρ row with hlt | heq | hgt
    · have h1 : (ρ + 1) * C ≤ row * C := Nat.mul_le_mul_right _ hlt
      have h2 : (ρ + 1) * C = ρ * C + C := by ring
      omega
    · subst heq
      exact ⟨rfl, by omega⟩
    · have h1 : (row + 1) * C ≤ ρ * C := Nat.mul_le_mul_right _ hgt
      have h2 : (row + 1) * C = row * C + C := by ring
      omega
  · rintro ⟨rfl, rfl⟩
    rfl

/-- Reading a cell of the table after a store into a cell of the table. -/
theorem QTableWidget.item_store_in_range (t : QTableWidget) (row col : Nat)
    (it : QTableWidgetItem) (ρ c : Nat) (hrow : row < t.rowCount)
    (hcol : col < t.columnCount) (hc : c < t.columnCount) :
    (t.store row col it).item ρ c = if ρ = row ∧ c = col then some it else t.item ρ c := by
  rw [QTableWidget.item_store]
  have hin := flat_lt t.rowCount t.columnCount row col hrow hcol
  have hiff := coord_eq_iff t.columnCount ρ c row col hc hcol
  by_cases h : ρ = row ∧ c = col
  · rw [if_pos ⟨hiff.mpr h, hin⟩, if_pos h]
  · rw [if_neg (fun h' => h (hiff.mp h'.1)), if_neg h]

/-- One iteration of the cell loop, with what it leaves in every cell of the
table, when its counter column lies inside the table. -/
theorem cellCalls_item {D : Type} (env : Env D) (timeunit : TimeUnit)
    (cd : QMap CounterDescription) (ci rows : QMap Nat) (result : CounterResult D)
    (t : QTableWidget)
    (hcol : QMap.value 0 ci result.counterID + 1 < t.columnCount)
    (hrow : QMap.value 0 rows result.eventID < t.rowCount) :
    ∃ t', t.run (cellCalls env timeunit cd ci rows result) = some t' ∧
      t'.rowCount = t.rowCount ∧ t'.columnCount = t.columnCount ∧
      ∀ ρ c, c < t.columnCount →
        t'.item ρ c =
          if writesCell ci rows ρ c result = true then some (cellItem env timeunit cd result c)
          else t.item ρ c := by
  have h0 : 0 < t.columnCount := by omega
  have hin := in_range_of_row_lt t.rowCount t.columnCount _ hrow (by omega)
  simp only [cellCalls, QTableWidget.run, QTableWidget.exec]
  have hitem : ((t.store (QMap.value 0 rows result.eventID) 0
        { text := Nat.repr result.eventID, userRole := none }).store
        (QMap.value 0 rows result.eventID) (QMap.value 0 ci result.counterID + 1)
        { text := FormatCounterResult env timeunit result
            (QMap.value env.defaultDescription cd result.counterID),
          userRole := none }).item (QMap.value 0 rows result.eventID) 0 =
      some { text := Nat.repr result.eventID, userRole := none } := by
    rw [QTableWidget.item_store_in_range _ _ _ _ _ _
        (by rw [QTableWidget.store_rowCount]; exact hrow)
        (by rw [QTableWidget.store_columnCount]; exact hcol)
        (by rw [QTableWidget.store_columnCount]; exact h0),
      QTableWidget.item_store_in_range _ _ _ _ _ _ hrow h0 h0]
    simp
  rw [hitem]
  refine ⟨_, rfl, by simp [QTableWidget.store_rowCount],
    by simp [QTableWidget.store_columnCount], ?_⟩
  intro ρ c hc
  rw [QTableWidget.item_store_in_range _ _ _ _ _ _
      (by simp only [QTableWidget.store_rowCount]; exact hrow)
      (by simp only [QTableWidget.store_columnCount]; exact h0)
      (by simp only [QTableWidget.store_columnCount]; exact hc),
    QTableWidget.item_store_in_range _ _ _ _ _ _
      (by rw [QTableWidget.store_rowCount]; exact hrow)
      (by rw [QTableWidget.store_columnCount]; exact hcol)
      (by rw [QTableWidget.store_columnCount]; exact hc),
    QTableWidget.item_store_in_range _ _ _ _ _ _ hrow h0 hc]
  simp only [writesCell, cellItem, decide_eq_true_eq]
  by_cases hρ : ρ = QMap.value 0 rows result.eventID
  · subst hρ
    by_cases hc0 : c = 0
    · subst hc0
      simp
    · by_cases hcc : c = QMap.value 0 ci result.counterID + 1
      · simp [hc0, hcc]
      · simp [hc0, hcc]
  · have hρ' : ¬ QMap.value 0 rows result.eventID = ρ := fun h => hρ h.symm
    simp [hρ, hρ']

/-- The cell loop, with what it leaves in every cell of the table: the item
of the last result that addresses the cell, or the old content. -/
theorem cellLoop_item {D : Type} (env : Env D) (timeunit : TimeUnit)
    (cd : QMap CounterDescription) (ci rows : QMap Nat) (results : List (CounterResult D))
    (t : QTableWidget)
    (hcol : ∀ r ∈ results, QMap.value 0 ci r.counterID + 1 < t.columnCount)
    (hrow : ∀ r ∈ results, QMap.value 0 rows r.eventID < t.rowCount) :
    ∃ t', t.run (cellLoop env timeunit cd ci rows results) = some t' ∧
      t'.rowCount = t.rowCount ∧ t'.columnCount = t.columnCount ∧
      ∀ ρ c, c < t.columnCount →
        t'.item ρ c =
          match lastWrite ci rows results ρ c with
          | some r => some (cellItem env timeunit cd r c)
          | none => t.item ρ c := by
  induction results generalizing t with
  | nil => exact ⟨t, rfl, rfl, rfl, fun ρ c _ => by simp [lastWrite]⟩
  | cons r rest ih =>
    obtain ⟨t1, h1, hr1, hc1, hi1⟩ := cellCalls_item env timeunit cd ci rows r t
      (hcol r (List.mem_cons_self _ _)) (hrow r (List.mem_cons_self _ _))
    obtain ⟨t2, h2, hr2, hc2, hi2⟩ := ih t1
      (fun r' hr' => by rw [hc1]; exact hcol r' (List.mem_cons_of_mem _ hr'))
      (fun r' hr' => by rw [hr1]; exact hrow r' (List.mem_cons_of_mem _ hr'))
    refine ⟨t2, ?_, by omega, by omega, ?_⟩
    · simp only [cellLoop]
      rw [QTableWidget.run_append, h1]
      simpa using h2
    · intro ρ c hc
      rw [hi2 ρ c (by omega), hi1 ρ c hc]
      simp only [lastWrite, List.reverse_cons, List.find?_append]
      cases hrest : List.find? (writesCell ci rows ρ c) rest.reverse with
      | some r' => simp
      | none =>
        by_cases hw : writesCell ci rows ρ c r = true
        · simp [List.find?_cons, hw]
        · have hw' : writesCell ci rows ρ c r = false := by
            cases h : writesCell ci rows ρ c r
            · rfl
            · exact absurd h hw
          simp [List.find?_cons, hw']

/-- In a build that evaluates `size()` first in line 153:
publishing, with what every cell of the published table holds when all
counter columns written lie inside the table: the item of the last result that
addresses the cell, and nothing when no result does. -/
theorem publishCalls_item {D : Type} (env : Env D) (timeunit : TimeUnit)
    (results : List (CounterResult D)) (cd : QMap CounterDescription) (ci : QMap Nat)
    (t : QTableWidget)
    (hcol : ∀ r ∈ results, QMap.value 0 ci r.counterID + 1 < (headers cd).length)
    (ho : env.order = AssignOrder.sizeFirst) :
    ∃ t', t.run (publishCalls env timeunit results cd ci) = some t' ∧
      t'.rowCount = QMap.size (eventIdToRow env.order results QMap.empty) ∧
      t'.columnCount = (headers cd).length ∧
      ∀ ρ c, c < (headers cd).length →
        t'.item ρ c =
          (lastWrite ci (eventIdToRow env.order results QMap.empty) results ρ c).map
            (fun r => cellItem env timeunit cd r c) := by
  have h4 : ∃ t4, t.run [TableOp.clear, TableOp.setColumnCount (headers cd).length,
        TableOp.setHorizontalHeaderLabels (headers cd),
        TableOp.setRowCount (QMap.size (eventIdToRow env.order results QMap.empty))] = some t4 ∧
      t4.rowCount = QMap.size (eventIdToRow env.order results QMap.empty) ∧
      t4.columnCount = (headers cd).length ∧ ∀ ρ c, t4.item ρ c = none := by
    refine ⟨_, rfl, rfl, rfl, ?_⟩
    intro ρ c
    simp [QTableWidget.item]
  obtain ⟨t4, h4run, h4r, h4c, h4i⟩ := h4
  obtain ⟨t1, h1, hr1, hc1, hi1⟩ := cellLoop_item env timeunit cd ci
    (eventIdToRow env.order results QMap.empty) results t4
    (fun r hr => by rw [h4c]; exact hcol r hr)
    (fun r hr => by rw [h4r]; exact eventIdToRow_row_lt env.order ho results r hr)
  refine ⟨t1, ?_, by rw [hr1, h4r], by rw [hc1, h4c], ?_⟩
  · unfold publishCalls
    simp only
    rw [QTableWidget.run_append, QTableWidget.run_append, h4run]
    simp only [Option.some_bind, h1]
    rfl
  · intro ρ c hc
    rw [hi1 ρ c (by rw [h4c]; exact hc), h4i]
    cases lastWrite ci (eventIdToRow env.order results QMap.empty) results ρ c <;> rfl

/-! ## The published table for a selection without repeats -/

theorem find?_eq_of_agree {α : Type} (p q : α → Bool) (l : List α)
    (h : ∀ x ∈ l, p x = q x) : l.find? p = l.find? q := by
  induction l with
  | nil => rfl
  | cons a rest ih =>
    simp only [List.find?_cons, h a (List.mem_cons_self _ _)]
    rw [ih (fun x hx => h x (List.mem_cons_of_mem _ hx))]

/-- For a selection without repeats the header list has one entry per
selected counter after "EID". -/
theorem headers_length_of_nodup {D : Type} (ctx : Context D) (sel : List GPUCounter)
    (hsel : sel.Nodup) (log : List ReplayCall) :
    (headers (describeCounters ctx sel (QMap.empty, log)).1).length = 1 + sel.length := by
  have hs := describeCounters_size ctx sel hsel QMap.empty log
    (by intro c _; simp [QMap.contains, QMap.empty])
  simp only [QMap.size, QMap.empty, List.length_nil, Nat.zero_add] at hs
  simp only [headers, List.length_cons, QMap.values, List.length_map, QMap.empty]
  omega

/-- For a selection without repeats the counter column of a counter lies
inside the table, if the counter is selected or the selection is not empty. -/
theorem counter_column_lt {D : Type} (ctx : Context D) (sel : List GPUCounter)
    (hsel : sel.Nodup) (log : List ReplayCall) (c : GPUCounter)
    (h : c ∈ sel ∨ sel ≠ []) :
    QMap.value 0 (indexCounters sel 0 QMap.empty) c + 1 <
      (headers (describeCounters ctx sel (QMap.empty, log)).1).length := by
  rw [headers_length_of_nodup ctx sel hsel log]
  by_cases hc : c ∈ sel
  · obtain ⟨i, hi⟩ := List.getElem?_of_mem hc
    rw [indexCounters_value sel hsel 0 QMap.empty i c hi]
    have hilt : i < sel.length := by
      rcases Nat.lt_or_ge i sel.length with hlt | hge
      · exact hlt
      · rw [List.getElem?_eq_none hge] at hi
        exact absurd hi (by simp)
    omega
  · rw [indexCounters_value_of_not_mem sel 0 QMap.empty c hc]
    have hne : sel ≠ [] := by
      rcases h with h | h
      · exact absurd h hc
      · exact h
    have : 0 < sel.length := List.length_pos.mpr hne
    simp only [QMap.value, QMap.empty]
    omega

/-- In a build that evaluates `size()` first in line 153:
with a capture loaded and the selection accepted, when every counter
column written lies inside the table, every cell of the published table holds
the item of the last result that addresses it, and nothing when none does. -/
theorem CaptureCounters_accepted_item {D : Type} (env : Env D) (ctx : Context D)
    (pcs : PerformanceCounterSelection) (v : Viewer)
    (hl : ctx.LogLoaded = true) (ha : pcs.result = DialogCode.Accepted)
    (hcol : ∀ r ∈ ctx.FetchCounters pcs.selectedCounters,
      QMap.value 0 (indexCounters pcs.selectedCounters 0 QMap.empty) r.counterID + 1 <
        (headers (describeCounters ctx pcs.selectedCounters
          (QMap.empty, v.replayCalls)).1).length)
    (ho : env.order = AssignOrder.sizeFirst) :
    ∃ v', CaptureCounters env ctx pcs v = some v' ∧
      v'.counterResults.rowCount =
        QMap.size (eventIdToRow env.order (ctx.FetchCounters pcs.selectedCounters) QMap.empty) ∧
      v'.counterResults.columnCount =
        (headers (describeCounters ctx pcs.selectedCounters
          (QMap.empty, v.replayCalls)).1).length ∧
      ∀ ρ c, c < (headers (describeCounters ctx pcs.selectedCounters
          (QMap.empty, v.replayCalls)).1).length →
        v'.counterResults.item ρ c =
          (lastWrite (indexCounters pcs.selectedCounters 0 QMap.empty)
            (eventIdToRow env.order (ctx.FetchCounters pcs.selectedCounters) QMap.empty)
            (ctx.FetchCounters pcs.selectedCounters) ρ c).map
            (fun r => cellItem env ctx.timeunit
              (describeCounters ctx pcs.selectedCounters (QMap.empty, v.replayCalls)).1
              r c) := by
  obtain ⟨table, hrun, hr, hc, hi⟩ := publishCalls_item env ctx.timeunit
    (ctx.FetchCounters pcs.selectedCounters)
    (describeCounters ctx pcs.selectedCounters (QMap.empty, v.replayCalls)).1
    (indexCounters pcs.selectedCounters 0 QMap.empty) v.counterResults hcol ho
  obtain ⟨table2, hrun2, _, _, _, hcap⟩ := CaptureCounters_accepted env ctx pcs v hl ha ho
  have heq : table2 = table := Option.some.inj (hrun2.symm.trans hrun)
  subst heq
  exact ⟨_, hcap, hr, hc, hi⟩

/-- In a build that evaluates `size()` first in line 153:
with a capture loaded and a selection without repeats accepted, the
published table has one column per selected counter after column 0. -/
theorem CaptureCounters_columnCount_of_nodup {D : Type} (env : Env D) (ctx : Context D)
    (pcs : PerformanceCounterSelection) (v : Viewer)
    (hl : ctx.LogLoaded = true) (ha : pcs.result = DialogCode.Accepted)
    (hsel : pcs.selectedCounters.Nodup)
    (ho : env.order = AssignOrder.sizeFirst) :
    ∃ v', CaptureCounters env ctx pcs v = some v' ∧
      v'.counterResults.columnCount = 1 + pcs.selectedCounters.length := by
  obtain ⟨table, _, _, hc, _, hcap⟩ := CaptureCounters_accepted env ctx pcs v hl ha ho
  exact ⟨_, hcap, by
    simp only
    rw [hc, headers_length_of_nodup ctx pcs.selectedCounters hsel]⟩

/-- In a build that evaluates `size()` first in line 153:
with a capture loaded and a selection without repeats accepted that is
not empty or covers the counters of all results, every row of the published
table has in column 0 the eventID assigned to the row, as text and as UserRole
data, and a double click on the row reads that eventID back. -/
theorem CaptureCounters_column_zero_of_nodup {D : Type} (env : Env D) (ctx : Context D)
    (pcs : PerformanceCounterSelection) (v : Viewer)
    (hl : ctx.LogLoaded = true) (ha : pcs.result = DialogCode.Accepted)
    (hsel : pcs.selectedCounters.Nodup)
    (hin : pcs.selectedCounters ≠ [] ∨
      ∀ r ∈ ctx.FetchCounters pcs.selectedCounters, r.counterID ∈ pcs.selectedCounters)
    (ho : env.order = AssignOrder.sizeFirst) :
    ∃ v', CaptureCounters env ctx pcs v = some v' ∧
      (∀ ρ, ρ < v'.counterResults.rowCount → ∃ r ∈ ctx.FetchCounters pcs.selectedCounters,
        QMap.value 0 (eventIdToRow env.order (ctx.FetchCounters pcs.selectedCounters) QMap.empty)
          r.eventID = ρ) ∧
      ∀ r ∈ ctx.FetchCounters pcs.selectedCounters,
        v'.counterResults.item
            (QMap.value 0 (eventIdToRow env.order (ctx.FetchCounters pcs.selectedCounters) QMap.empty)
              r.eventID) 0 =
          some { text := Nat.repr r.eventID, userRole := some r.eventID } ∧
        on_counterResults_doubleClicked v'.counterResults
            (QMap.value 0 (eventIdToRow env.order (ctx.FetchCounters pcs.selectedCounters) QMap.empty)
              r.eventID) = some r.eventID := by
  have hcol : ∀ r ∈ ctx.FetchCounters pcs.selectedCounters,
      QMap.value 0 (indexCounters pcs.selectedCounters 0 QMap.empty) r.counterID + 1 <
        (headers (describeCounters ctx pcs.selectedCounters
          (QMap.empty, v.replayCalls)).1).length := by
    intro r hr
    apply counter_column_lt ctx pcs.selectedCounters hsel
    rcases hin with h | h
    · exact Or.inr h
    · exact Or.inl (h r hr)
  obtain ⟨v', hcap, hr, hc, hi⟩ := CaptureCounters_accepted_item env ctx pcs v hl ha hcol ho
  refine ⟨v', hcap, ?_, ?_⟩
  · intro ρ hρ
    rw [hr] at hρ
    exact eventIdToRow_row_surjective env.order ho _ ρ hρ
  · intro r hrmem
    have hitem : v'.counterResults.item
        (QMap.value 0 (eventIdToRow env.order (ctx.FetchCounters pcs.selectedCounters) QMap.empty)
          r.eventID) 0 =
        some { text := Nat.repr r.eventID, userRole := some r.eventID } := by
      rw [hi _ 0 (by simp [headers])]
      cases hlw : lastWrite (indexCounters pcs.selectedCounters 0 QMap.empty)
          (eventIdToRow env.order (ctx.FetchCounters pcs.selectedCounters) QMap.empty)
          (ctx.FetchCounters pcs.selectedCounters)
          (QMap.value 0 (eventIdToRow env.order (ctx.FetchCounters pcs.selectedCounters) QMap.empty)
            r.eventID) 0 with
      | none =>
        simp only [lastWrite, List.find?_eq_none] at hlw
        exact absurd (by simp [writesCell]) (hlw r (List.mem_reverse.mpr hrmem))
      | some r' =>
        simp only [lastWrite] at hlw
        have hmem' : r' ∈ ctx.FetchCounters pcs.selectedCounters :=
          List.mem_reverse.mp (List.mem_of_find?_eq_some hlw)
        have hw := List.find?_some hlw
        simp only [writesCell, decide_eq_true_eq] at hw
        have he := eventIdToRow_row_injective env.order ho _ r' r hmem' hrmem hw.1
        simp [cellItem, he]
    refine ⟨hitem, ?_⟩
    simp only [on_counterResults_doubleClicked, hitem]

/-- For a selection without repeats, a selected counter sits at the position
the index map gives for it. -/
theorem indexCounters_position (sel : List GPUCounter) (hsel : sel.Nodup) (c : GPUCounter)
    (hc : c ∈ sel) : sel[QMap.value 0 (indexCounters sel 0 QMap.empty) c]? = some c := by
  obtain ⟨i, hi⟩ := List.getElem?_of_mem hc
  rw [indexCounters_value sel hsel 0 QMap.empty i c hi, Nat.zero_add]
  exact hi

/-- In a build that evaluates `size()` first in line 153:
with a capture loaded and a selection without repeats accepted that covers
the counters of all results, the published cell of a result, in the row of its
eventID and column i+1 of its counter, holds the formatted text of the last
result of the sequence with the same eventID and counterID. -/
theorem CaptureCounters_last_result_wins {D : Type} (env : Env D) (ctx : Context D)
    (pcs : PerformanceCounterSelection) (v : Viewer)
    (hl : ctx.LogLoaded = true) (ha : pcs.result = DialogCode.Accepted)
    (hsel : pcs.selectedCounters.Nodup)
    (hall : ∀ r ∈ ctx.FetchCounters pcs.selectedCounters,
      r.counterID ∈ pcs.selectedCounters)
    (ho : env.order = AssignOrder.sizeFirst) :
    ∃ v', CaptureCounters env ctx pcs v = some v' ∧
      ∀ r ∈ ctx.FetchCounters pcs.selectedCounters, ∀ i,
        pcs.selectedCounters[i]? = some r.counterID →
        v'.counterResults.item
            (QMap.value 0 (eventIdToRow env.order (ctx.FetchCounters pcs.selectedCounters) QMap.empty)
              r.eventID) (i + 1) =
          ((ctx.FetchCounters pcs.selectedCounters).reverse.find?
            (fun r' => decide (r'.eventID = r.eventID ∧ r'.counterID = r.counterID))).map
            (fun rl =>
              { text := FormatCounterResult env ctx.timeunit rl
                  (ctx.DescribeCounter rl.counterID),
                userRole := none }) := by
  have hcol : ∀ r ∈ ctx.FetchCounters pcs.selectedCounters,
      QMap.value 0 (indexCounters pcs.selectedCounters 0 QMap.empty) r.counterID + 1 <
        (headers (describeCounters ctx pcs.selectedCounters
          (QMap.empty, v.replayCalls)).1).length :=
    fun r hr => counter_column_lt ctx pcs.selectedCounters hsel _ _ (Or.inl (hall r hr))
  obtain ⟨v', hcap, _, _, hi⟩ := CaptureCounters_accepted_item env ctx pcs v hl ha hcol ho
  refine ⟨v', hcap, ?_⟩
  intro r hr i hsi
  have hidx : QMap.value 0 (indexCounters pcs.selectedCounters 0 QMap.empty) r.counterID = i := by
    rw [indexCounters_value pcs.selectedCounters hsel 0 QMap.empty i r.counterID hsi]
    omega
  have hlt := hcol r hr
  rw [hidx] at hlt
  rw [hi _ (i + 1) hlt]
  unfold lastWrite
  have hagree : ∀ x ∈ (ctx.FetchCounters pcs.selectedCounters).reverse,
      writesCell (indexCounters pcs.selectedCounters 0 QMap.empty)
        (eventIdToRow env.order (ctx.FetchCounters pcs.selectedCounters) QMap.empty)
        (QMap.value 0 (eventIdToRow env.order (ctx.FetchCounters pcs.selectedCounters) QMap.empty)
          r.eventID) (i + 1) x =
      decide (x.eventID = r.eventID ∧ x.counterID = r.counterID) := by
    intro x hx
    have hxm : x ∈ ctx.FetchCounters pcs.selectedCounters := List.mem_reverse.mp hx
    simp only [writesCell]
    apply decide_eq_decide.mpr
    constructor
    · rintro ⟨hrow, hc⟩
      have he := eventIdToRow_row_injective env.order ho _ x r hxm hr hrow
      have hxi : QMap.value 0 (indexCounters pcs.selectedCounters 0 QMap.empty)
          x.counterID = i := by
        rcases hc with hc | hc
        · omega
        · omega
      have hpos := indexCounters_position pcs.selectedCounters hsel x.counterID (hall x hxm)
      rw [hxi, hsi] at hpos
      exact ⟨he, (Option.some.inj hpos).symm⟩
    · rintro ⟨he, hc⟩
      rw [he, hc, hidx]
      exact ⟨rfl, Or.inr rfl⟩
  rw [find?_eq_of_agree _ _ _ hagree]
  cases hf : List.find? (fun r' => decide (r'.eventID = r.eventID ∧ r'.counterID = r.counterID))
      (ctx.FetchCounters pcs.selectedCounters).reverse with
  | none => rfl
  | some rl =>
    have hrl : rl ∈ ctx.FetchCounters pcs.selectedCounters :=
      List.mem_reverse.mp (List.mem_of_find?_eq_some hf)
    have hdesc := describeCounters_value ctx env.defaultDescription pcs.selectedCounters
      QMap.empty v.replayCalls rl.counterID
    rw [if_pos (hall rl hrl)] at hdesc
    simp [cellItem, hdesc]

/-- In a build that evaluates `size()` first in line 153:
with a capture loaded and a selection without repeats accepted that covers
the counters of all results, a cell of a counter column of the published table
holds an item only if some result has the eventID of that row and the counter
selected for that column. -/
theorem CaptureCounters_cell_only_if_result {D : Type} (env : Env D) (ctx : Context D)
    (pcs : PerformanceCounterSelection) (v : Viewer)
    (hl : ctx.LogLoaded = true) (ha : pcs.result = DialogCode.Accepted)
    (hsel : pcs.selectedCounters.Nodup)
    (hall : ∀ r ∈ ctx.FetchCounters pcs.selectedCounters,
      r.counterID ∈ pcs.selectedCounters)
    (ho : env.order = AssignOrder.sizeFirst) :
    ∃ v', CaptureCounters env ctx pcs v = some v' ∧
      ∀ ρ c, 1 ≤ c → c < v'.counterResults.columnCount →
        (v'.counterResults.item ρ c).isSome = true →
        ∃ r ∈ ctx.FetchCounters pcs.selectedCounters,
          QMap.value 0 (eventIdToRow env.order (ctx.FetchCounters pcs.selectedCounters) QMap.empty)
            r.eventID = ρ ∧
          pcs.selectedCounters[c - 1]? = some r.counterID := by
  have hcol : ∀ r ∈ ctx.FetchCounters pcs.selectedCounters,
      QMap.value 0 (indexCounters pcs.selectedCounters 0 QMap.empty) r.counterID + 1 <
        (headers (describeCounters ctx pcs.selectedCounters
          (QMap.empty, v.replayCalls)).1).length :=
    fun r hr => counter_column_lt ctx pcs.selectedCounters hsel _ _ (Or.inl (hall r hr))
  obtain ⟨v', hcap, _, hc, hi⟩ := CaptureCounters_accepted_item env ctx pcs v hl ha hcol ho
  refine ⟨v', hcap, ?_⟩
  intro ρ c hc1 hclt hsome
  rw [hc] at hclt
  rw [hi ρ c hclt] at hsome
  cases hlw : lastWrite (indexCounters pcs.selectedCounters 0 QMap.empty)
      (eventIdToRow env.order (ctx.FetchCounters pcs.selectedCounters) QMap.empty)
      (ctx.FetchCounters pcs.selectedCounters) ρ c with
  | none => rw [hlw] at hsome; simp at hsome
  | some r =>
    simp only [lastWrite] at hlw
    have hr : r ∈ ctx.FetchCounters pcs.selectedCounters :=
      List.mem_reverse.mp (List.mem_of_find?_eq_some hlw)
    have hw := List.find?_some hlw
    simp only [writesCell, decide_eq_true_eq] at hw
    refine ⟨r, hr, hw.1, ?_⟩
    have hpos := indexCounters_position pcs.selectedCounters hsel r.counterID (hall r hr)
    have hcc : c - 1 = QMap.value 0 (indexCounters pcs.selectedCounters 0 QMap.empty)
        r.counterID := by
      rcases hw.2 with h | h <;> omega
    rw [hcc]
    exact hpos

theorem mem_cellLoop {D : Type} (env : Env D) (timeunit : TimeUnit)
    (cd : QMap CounterDescription) (ci rows : QMap Nat) (results : List (CounterResult D))
    (op : TableOp) (h : op ∈ cellLoop env timeunit cd ci rows results) :
    ∃ r ∈ results, op ∈ cellCalls env timeunit cd ci rows r := by
  induction results with
  | nil => simp [cellLoop] at h
  | cons r rest ih =>
    simp only [cellLoop, List.mem_append] at h
    rcases h with h | h
    · exact ⟨r, List.mem_cons_self _ _, h⟩
    · obtain ⟨r', hr', hop⟩ := ih h
      exact ⟨r', List.mem_cons_of_mem _ hr', hop⟩

/-- In a build that evaluates `size()` first in line 153:
with a capture loaded and a selection without repeats accepted that covers
the counters of all results, every setItem call of the publishing step names a
row below the row count and a column below the column count of the table. -/
theorem CaptureCounters_writes_inside_of_nodup {D : Type} (env : Env D) (ctx : Context D)
    (pcs : PerformanceCounterSelection) (v : Viewer)
    (hl : ctx.LogLoaded = true) (ha : pcs.result = DialogCode.Accepted)
    (hsel : pcs.selectedCounters.Nodup)
    (hall : ∀ r ∈ ctx.FetchCounters pcs.selectedCounters,
      r.counterID ∈ pcs.selectedCounters)
    (ho : env.order = AssignOrder.sizeFirst) :
    ∃ v' calls, CaptureCounters env ctx pcs v = some v' ∧
      v'.tableCalls = v.tableCalls ++ calls ∧
      TableOp.setRowCount v'.counterResults.rowCount ∈ calls ∧
      TableOp.setColumnCount v'.counterResults.columnCount ∈ calls ∧
      ∀ row col it, TableOp.setItem row col it ∈ calls →
        row < v'.counterResults.rowCount ∧ col < v'.counterResults.columnCount := by
  obtain ⟨table, _, hr, hc, _, hcap⟩ := CaptureCounters_accepted env ctx pcs v hl ha ho
  refine ⟨_, _, hcap, rfl, ?_, ?_, ?_⟩
  · simp only [hr, publishCalls]
    simp
  · simp only [hc, publishCalls]
    simp
  · intro row col it hmem
    simp only [publishCalls, List.cons_append, List.nil_append, List.mem_cons,
      List.mem_append, List.mem_singleton] at hmem
    have hloop : TableOp.setItem row col it ∈ cellLoop env ctx.timeunit
        (describeCounters ctx pcs.selectedCounters (QMap.empty, v.replayCalls)).1
        (indexCounters pcs.selectedCounters 0 QMap.empty)
        (eventIdToRow env.order (ctx.FetchCounters pcs.selectedCounters) QMap.empty)
        (ctx.FetchCounters pcs.selectedCounters) := by
      rcases hmem with h | h | h | h | h | h | h
      · cases h
      · cases h
      · cases h
      · cases h
      · exact h
      · cases h
      · cases h
    obtain ⟨r, hrm, hop⟩ := mem_cellLoop _ _ _ _ _ _ _ hloop
    have hrow := eventIdToRow_row_lt env.order ho _ r hrm
    have hcol := counter_column_lt ctx pcs.selectedCounters hsel v.replayCalls r.counterID
      (Or.inl (hall r hrm))
    simp only [cellCalls, List.mem_cons, List.mem_singleton, TableOp.setItem.injEq,
      List.not_mem_nil, or_false] at hop
    simp only [hr, hc]
    rcases hop with ⟨h1, h2, _⟩ | ⟨h1, h2, _⟩ | h
    · subst h1 h2
      exact ⟨hrow, by omega⟩
    · subst h1 h2
      exact ⟨hrow, hcol⟩
    · cases h

/-! ## Every key-first run with a result faults -/

theorem QMap.insert_insert {V : Type} (m : QMap V) (k : Nat) (a b : V) :
    QMap.insert (QMap.insert m k a) k b = QMap.insert m k b := by
  induction m with
  | nil => simp [QMap.insert]
  | cons p rest ih =>
    obtain ⟨k', v'⟩ := p
    by_cases h1 : k < k'
    · simp [QMap.insert, h1]
    · by_cases h2 : k' < k
      · simp only [QMap.insert, h1, h2, if_true, if_false]
        rw [ih]
      · simp [QMap.insert, h1, h2]

/-- Line 153 with `operator[]` evaluated first stores one more than the size
the map had. -/
theorem assignRow_keyFirst (m : QMap Nat) (e : Nat) (h : QMap.contains m e = false) :
    assignRow AssignOrder.keyFirst m e = QMap.insert m e (QMap.size m + 1) := by
  simp only [assignRow]
  rw [QMap.insert_insert, QMap.size_insert m e 0 h]

/-- The keys of the row map are the keys it started with and the eventIDs of
the results, whatever the operand order of line 153. -/
theorem eventIdToRow_contains {D : Type} (order : AssignOrder)
    (rs : List (CounterResult D)) (m : QMap Nat) (k : Nat) :
    QMap.contains (eventIdToRow order rs m) k = true ↔
      QMap.contains m k = true ∨ k ∈ rs.map (fun r => r.eventID) := by
  induction rs generalizing m with
  | nil => simp [eventIdToRow]
  | cons r rest ih =>
    unfold eventIdToRow
    by_cases hin : QMap.contains m r.eventID = true
    · simp only [hin, if_true, ih, List.map_cons, List.mem_cons]
      constructor
      · rintro (h | h)
        · exact Or.inl h
        · exact Or.inr (Or.inr h)
      · rintro (h | h | h)
        · exact Or.inl h
        · exact Or.inl (h ▸ hin)
        · exact Or.inr h
    · have hnot : QMap.contains m r.eventID = false := by
        cases h : QMap.contains m r.eventID
        · rfl
        · exact absurd h hin
      simp only [hnot, Bool.false_eq_true, if_false, ih, List.map_cons, List.mem_cons]
      have hkey : QMap.contains (assignRow order m r.eventID) k = true ↔
          r.eventID = k ∨ QMap.contains m k = true := by
        cases order <;>
          simp [assignRow, QMap.contains_insert]
      rw [hkey]
      constructor
      · rintro ((h | h) | h)
        · exact Or.inr (Or.inl h.symm)
        · exact Or.inl h
        · exact Or.inr (Or.inr h)
      · rintro (h | h | h)
        · exact Or.inl (Or.inr h)
        · exact Or.inl (Or.inl h.symm)
        · exact Or.inr h

/-- With `operator[]` evaluated first, looking up the key of an entry gives
its row, and a map that has a key has one whose row is the size. -/
theorem eventIdToRow_keyFirst_top {D : Type} (rs : List (CounterResult D)) (m : QMap Nat)
    (hfun : ∀ p ∈ m, QMap.value 0 m p.1 = p.2)
    (htop : m ≠ [] → ∃ p ∈ m, p.2 = QMap.size m) :
    (∀ p ∈ eventIdToRow AssignOrder.keyFirst rs m,
      QMap.value 0 (eventIdToRow AssignOrder.keyFirst rs m) p.1 = p.2) ∧
    (eventIdToRow AssignOrder.keyFirst rs m ≠ [] →
      ∃ p ∈ eventIdToRow AssignOrder.keyFirst rs m,
        p.2 = QMap.size (eventIdToRow AssignOrder.keyFirst rs m)) := by
  induction rs generalizing m with
  | nil => exact ⟨hfun, htop⟩
  | cons r rest ih =>
    unfold eventIdToRow
    by_cases hin : QMap.contains m r.eventID = true
    · simp only [hin, if_true]
      exact ih m hfun htop
    · have hnot : QMap.contains m r.eventID = false := by
        cases h : QMap.contains m r.eventID
        · rfl
        · exact absurd h hin
      simp only [hnot, Bool.false_eq_true, if_false]
      rw [assignRow_keyFirst m r.eventID hnot]
      have hkey : ∀ p ∈ m, p.1 ≠ r.eventID := by
        intro p hp he
        have := QMap.contains_of_mem m p hp
        rw [he, hnot] at this
        exact absurd this (by simp)
      apply ih
      · intro p hp
        rw [QMap.value_insert]
        rcases QMap.mem_insert _ _ _ _ hp with h | h
        · subst h; simp
        · have hne : r.eventID ≠ p.1 := fun e => hkey p h e.symm
          simp only [hne, if_false]
          exact hfun p h
      · intro _
        exact ⟨(r.eventID, QMap.size m + 1), QMap.mem_insert_self _ _ _,
          (QMap.size_insert m r.eventID _ hnot).symm⟩

/-- With `operator[]` evaluated first, some result of a non-empty sequence is
assigned the row count itself, one past the last row. -/
theorem eventIdToRow_keyFirst_row_outside {D : Type} (results : List (CounterResult D))
    (hne : results ≠ []) :
    ∃ r ∈ results,
      QMap.value 0 (eventIdToRow AssignOrder.keyFirst results QMap.empty) r.eventID =
        QMap.size (eventIdToRow AssignOrder.keyFirst results QMap.empty) := by
  obtain ⟨r0, rest, rfl⟩ := List.exists_cons_of_ne_nil hne
  have hkeys := eventIdToRow_contains AssignOrder.keyFirst (r0 :: rest) QMap.empty
  have h0 : QMap.contains (eventIdToRow AssignOrder.keyFirst (r0 :: rest) QMap.empty)
      r0.eventID = true := (hkeys r0.eventID).mpr (Or.inr (by simp))
  have hnonempty : eventIdToRow AssignOrder.keyFirst (r0 :: rest) QMap.empty ≠ [] := by
    intro h
    rw [h] at h0
    simp [QMap.contains] at h0
  obtain ⟨hfun, htop⟩ := eventIdToRow_keyFirst_top (r0 :: rest) QMap.empty
    (by intro p hp; simp [QMap.empty] at hp) (by intro h; exact absurd rfl h)
  obtain ⟨p, hp, hpsize⟩ := htop hnonempty
  have hpk := (hkeys p.1).mp (QMap.contains_of_mem _ p hp)
  rcases hpk with h | h
  · simp [QMap.contains, QMap.empty] at h
  · obtain ⟨r, hr, hre⟩ := List.mem_map.mp h
    refine ⟨r, hr, ?_⟩
    rw [hre, hfun p hp, hpsize]

theorem flat_ge (R C row col : Nat) (hrow : R ≤ row) : ¬ row * C + col < R * C := by
  have h1 : R * C ≤ row * C := Nat.mul_le_mul_right _ hrow
  omega

/-- An iteration of the cell loop whose row is not a row of the table faults:
its items are not stored and `item(row, 0)` is null. -/
theorem cellCalls_fault {D : Type} (env : Env D) (timeunit : TimeUnit)
    (cd : QMap CounterDescription) (ci rows : QMap Nat) (result : CounterResult D)
    (t : QTableWidget) (hrow : t.rowCount ≤ QMap.value 0 rows result.eventID) :
    t.run (cellCalls env timeunit cd ci rows result) = none := by
  have hst : ∀ col it, t.store (QMap.value 0 rows result.eventID) col it = t := by
    intro col it
    unfold QTableWidget.store
    simp only [flat_ge t.rowCount t.columnCount _ col hrow, if_false]
  have hit : t.item (QMap.value 0 rows result.eventID) 0 = none := by
    unfold QTableWidget.item
    simp only [flat_ge t.rowCount t.columnCount _ 0 hrow, if_false]
  simp only [cellCalls, QTableWidget.run, QTableWidget.exec, hst, hit]

/-- An iteration of the cell loop that completes keeps the dimensions. -/
theorem cellCalls_dims {D : Type} (env : Env D) (timeunit : TimeUnit)
    (cd : QMap CounterDescription) (ci rows : QMap Nat) (result : CounterResult D)
    (t t1 : QTableWidget)
    (h : t.run (cellCalls env timeunit cd ci rows result) = some t1) :
    t1.rowCount = t.rowCount ∧ t1.columnCount = t.columnCount := by
  simp only [cellCalls, QTableWidget.run, QTableWidget.exec] at h
  cases hitem : ((t.store (QMap.value 0 rows result.eventID) 0
      { text := Nat.repr result.eventID, userRole := none }).store
      (QMap.value 0 rows result.eventID) (QMap.value 0 ci result.counterID + 1)
      { text := FormatCounterResult env timeunit result
          (QMap.value env.defaultDescription cd result.counterID),
        userRole := none }).item (QMap.value 0 rows result.eventID) 0 with
  | none =>
    rw [hitem] at h
    cases h
  | some it =>
    rw [hitem] at h
    simp only [Option.some.injEq] at h
    rw [← h]
    simp only [QTableWidget.store_rowCount, QTableWidget.store_columnCount, and_self]

/-- The cell loop faults when some result's row is not a row of the table. -/
theorem cellLoop_fault {D : Type} (env : Env D) (timeunit : TimeUnit)
    (cd : QMap CounterDescription) (ci rows : QMap Nat) (results : List (CounterResult D))
    (t : QTableWidget)
    (hbad : ∃ r ∈ results, t.rowCount ≤ QMap.value 0 rows r.eventID) :
    t.run (cellLoop env timeunit cd ci rows results) = none := by
  induction results generalizing t with
  | nil =>
    obtain ⟨r, hr, _⟩ := hbad
    simp at hr
  | cons r0 rest ih =>
    simp only [cellLoop]
    rw [QTableWidget.run_append]
    cases h1 : t.run (cellCalls env timeunit cd ci rows r0) with
    | none => rfl
    | some t1 =>
      obtain ⟨hr1, _⟩ := cellCalls_dims env timeunit cd ci rows r0 t t1 h1
      obtain ⟨r, hr, hrow⟩ := hbad
      rcases List.mem_cons.mp hr with h | h
      · subst h
        rw [cellCalls_fault env timeunit cd ci rows r t hrow] at h1
        cases h1
      · simp only [Option.some_bind]
        exact ih t1 ⟨r, h, by rw [hr1]; exact hrow⟩

/-- In a build that evaluates `operator[]` first in line 153, every accepted
capture whose fetch returns at least one result faults while publishing. -/
theorem CaptureCounters_keyFirst_faults {D : Type} (env : Env D) (ctx : Context D)
    (pcs : PerformanceCounterSelection) (v : Viewer)
    (hl : ctx.LogLoaded = true) (ha : pcs.result = DialogCode.Accepted)
    (ho : env.order = AssignOrder.keyFirst)
    (hne : ctx.FetchCounters pcs.selectedCounters ≠ []) :
    CaptureCounters env ctx pcs v = none := by
  rw [CaptureCounters_of_accepted env ctx pcs v hl ha]
  have hrun : v.counterResults.run (publishCalls env ctx.timeunit
      (ctx.FetchCounters pcs.selectedCounters)
      (describeCounters ctx pcs.selectedCounters (QMap.empty, v.replayCalls)).1
      (indexCounters pcs.selectedCounters 0 QMap.empty)) = none := by
    unfold publishCalls
    simp only
    rw [ho, QTableWidget.run_append, QTableWidget.run_append]
    have h4 : ∃ t4, v.counterResults.run [TableOp.clear,
          TableOp.setColumnCount (headers (describeCounters ctx pcs.selectedCounters
            (QMap.empty, v.replayCalls)).1).length,
          TableOp.setHorizontalHeaderLabels (headers (describeCounters ctx
            pcs.selectedCounters (QMap.empty, v.replayCalls)).1),
          TableOp.setRowCount (QMap.size (eventIdToRow AssignOrder.keyFirst
            (ctx.FetchCounters pcs.selectedCounters) QMap.empty))] = some t4 ∧
        t4.rowCount = QMap.size (eventIdToRow AssignOrder.keyFirst
          (ctx.FetchCounters pcs.selectedCounters) QMap.empty) :=
      ⟨_, rfl, rfl⟩
    obtain ⟨t4, h4run, h4r⟩ := h4
    rw [h4run]
    simp only [Option.some_bind]
    obtain ⟨r, hr, hrow⟩ := eventIdToRow_keyFirst_row_outside _ hne
    rw [cellLoop_fault env ctx.timeunit _ _ _ _ t4 ⟨r, hr, by rw [h4r, hrow]⟩]
    rfl
  rw [hrun]
  rfl

/-! ## Line 153 with `operator[]` evaluated first -/

/-- C2: in a build that evaluates `operator[]` first in line 153, the results
with eventIDs 7, 3, 7 have two distinct eventIDs and the table is sized with
setRowCount(2), but event 7 is assigned row 1 and event 3 row 2, not the
first-seen numbers 0 and 1; the sample of event 3 is addressed to row 2,
outside the table, and the run faults on `item(2, 0)->setData`. -/
theorem CaptureCounters_rows_key_first :
    (unsortedEvents.FetchCounters [1]).map (fun r => r.eventID) = [7, 3, 7] ∧
    QMap.value 0 (eventIdToRow AssignOrder.keyFirst (unsortedEvents.FetchCounters [1])
      QMap.empty) 7 = 1 ∧
    QMap.value 0 (eventIdToRow AssignOrder.keyFirst (unsortedEvents.FetchCounters [1])
      QMap.empty) 3 = 2 ∧
    QMap.size (eventIdToRow AssignOrder.keyFirst (unsortedEvents.FetchCounters [1])
      QMap.empty) = 2 ∧
    (publishingOf decEnvKeyFirst unsortedEvents [1])[3]? = some (TableOp.setRowCount 2) ∧
    (publishingOf decEnvKeyFirst unsortedEvents [1])[7]? =
      some (TableOp.setItem 2 0 { text := "3", userRole := none }) ∧
    (freshViewer.counterResults.run
        ((publishingOf decEnvKeyFirst unsortedEvents [1]).take 9)).isSome = true ∧
    (freshViewer.counterResults.run
        ((publishingOf decEnvKeyFirst unsortedEvents [1]).take 10)).isSome = false ∧
    (CaptureCounters decEnvKeyFirst unsortedEvents ⟨DialogCode.Accepted, [1]⟩
      freshViewer).isSome = false := by
  refine ⟨by decide, by decide, by decide, by decide, by decide, by decide, by decide,
    by decide, by decide⟩

/-- C3: in a build that evaluates `operator[]` first in line 153, with the
distinct counters 2, 1 selected and samples of both at event 7, the table is
sized with setRowCount(1) and event 7 is assigned row 1: the sample of counter
2 (position 0) is passed to setItem(1, 1, ..), which stores nothing in the
one-row table, the run faults on `item(1, 0)->setData`, and the sample of
counter 1 (position 1, column 2) is never written. -/
theorem CaptureCounters_cell_row_key_first :
    ([2, 1] : List GPUCounter).Nodup ∧
    (twoCounters.FetchCounters [2, 1]).map (fun r => (r.eventID, r.counterID)) =
      [(7, 2), (7, 1)] ∧
    (publishingOf decEnvKeyFirst twoCounters [2, 1])[3]? = some (TableOp.setRowCount 1) ∧
    (publishingOf decEnvKeyFirst twoCounters [2, 1])[5]? =
      some (TableOp.setItem 1 1 { text := "20", userRole := none }) ∧
    (freshViewer.counterResults.run
        ((publishingOf decEnvKeyFirst twoCounters [2, 1]).take 6)).map
        (fun t => (t.rowCount, t.columnCount, t.item 0 1, t.item 0 2)) =
      some (1, 3, none, none) ∧
    (freshViewer.counterResults.run
        ((publishingOf decEnvKeyFirst twoCounters [2, 1]).take 7)).isSome = false ∧
    (CaptureCounters decEnvKeyFirst twoCounters ⟨DialogCode.Accepted, [2, 1]⟩
      freshViewer).isSome = false := by
  refine ⟨by decide, by decide, by decide, by decide, by decide, by decide, by decide⟩

end PerformanceCounterViewer
